import Mathlib

/-!
Verification of the category-tree engine and the content-addressed file store
of the knowledge-system backend, via a shallow embedding of the Python source
(`app/models/category.py`, `app/crud/category.py`, `app/api/v1/categories.py`,
`app/models/file.py`, `app/crud/file.py`, `app/api/v1/files.py`) into Lean.

Records are embedded as structures, the database tables as lists of records,
and each CRUD/API operation as a pure function from store to store (errors are
explicit constructors, mirroring the `None` returns and `ValueError`s of the
source and their HTTP mappings: `None` becomes `notFound`, `ValueError`
becomes `invalidState`).
-/

namespace KS

/-! ### Small string utilities used by the embedding -/

/-- Boolean list-prefix test on characters (used to embed SQL
`path LIKE '<p>/%'` queries and Python `str.startswith`). -/
def isPfx : List Char → List Char → Bool
  | [], _ => true
  | _ :: _, [] => false
  | a :: as, b :: bs => a = b && isPfx as bs

/-- Boolean infix (substring) test on characters. -/
def isInfixChars (needle : List Char) : List Char → Bool
  | [] => isPfx needle []
  | c :: cs => isPfx needle (c :: cs) || isInfixChars needle cs

/-- Decimal digit character for a value below ten. -/
def digitChar : Nat → Char
  | 0 => '0' | 1 => '1' | 2 => '2' | 3 => '3' | 4 => '4'
  | 5 => '5' | 6 => '6' | 7 => '7' | 8 => '8' | _ => '9'

/-- Numeric value of a decimal digit character. -/
def digitVal : Char → Nat
  | '0' => 0 | '1' => 1 | '2' => 2 | '3' => 3 | '4' => 4
  | '5' => 5 | '6' => 6 | '7' => 7 | '8' => 8 | _ => 9

/-- Digit-list worker, structurally recursive on a fuel argument so that it
reduces inside the kernel; `fuel ≥ n` always suffices. -/
def natDigitsAux : Nat → Nat → List Char
  | 0, _ => []
  | fuel + 1, n =>
    if n < 10 then [digitChar n]
    else natDigitsAux fuel (n / 10) ++ [digitChar (n % 10)]

/-- Decimal digit list of a natural number, most significant first
(the rendering Python's f-string `f"{base}-{counter}"` uses). -/
def natDigits (n : Nat) : List Char := natDigitsAux (n + 1) n

/-- Decimal rendering of a natural number. -/
def natRepr (n : Nat) : String := String.mk (natDigits n)

/-- Value of a digit list read back, most significant first. -/
def decVal (l : List Char) : Nat := l.foldl (fun a c => 10 * a + digitVal c) 0

/-! ### Path codec: slug derivation

Embeds `Category.create_slug_from_name` (`app/models/category.py`, lines
180-201).  The Python pipeline is: NFKD-normalize, delete every character
matching `[^\w\s-]`, `strip()`, `lower()`, replace runs of `[\s_]+` by `-`,
collapse runs of `-`, strip `-`, and fall back to `"category"` when empty.
The embedding covers ASCII inputs, on which NFKD normalization is the
identity and `\w`/`\s` coincide with the ASCII classes below. -/

/-- Python's `\w` on ASCII: letters, digits and underscore. -/
def pyIsWordChar (c : Char) : Bool := c.isAlphanum || c = '_'

/-- Python's `\s` on ASCII: the six ASCII whitespace characters. -/
def pyIsSpaceChar (c : Char) : Bool :=
  c = ' ' || c = '\t' || c = '\n' || c = '\r' || c = '\x0b' || c = '\x0c'

/-- ASCII lower-casing of one character (Python `str.lower` on ASCII). -/
def pyToLower (c : Char) : Char := c.toLower

/-- Drop the characters satisfying `p` from both ends (Python `str.strip`). -/
def stripBoth (p : Char → Bool) (l : List Char) : List Char :=
  ((l.dropWhile p).reverse.dropWhile p).reverse

/-- Replace every maximal run of characters satisfying `p` by the single
character `r` (one `re.sub` of the slug pipeline).  The boolean argument
records whether the previous character belonged to a run. -/
def replaceRunsAux (p : Char → Bool) (r : Char) : List Char → Bool → List Char
  | [], _ => []
  | c :: cs, inRun =>
    if p c then
      if inRun then replaceRunsAux p r cs true
      else r :: replaceRunsAux p r cs true
    else c :: replaceRunsAux p r cs false

/-- Replace maximal runs of characters satisfying `p` by single `r`. -/
def replaceRuns (p : Char → Bool) (r : Char) (l : List Char) : List Char :=
  replaceRunsAux p r l false

/-- Embeds `Category.create_slug_from_name` on ASCII input. -/
def create_slug_from_name (name : String) : String :=
  let l1 := name.toList.filter (fun c => pyIsWordChar c || pyIsSpaceChar c || c = '-')
  let l2 := stripBoth pyIsSpaceChar l1
  let l3 := l2.map pyToLower
  let l4 := replaceRuns (fun c => pyIsSpaceChar c || c = '_') '-' l3
  let l5 := replaceRuns (fun c => c = '-') '-' l4
  let l6 := stripBoth (fun c => c = '-') l5
  if l6.isEmpty then "category" else String.mk l6

/-! ### Data model

Projections of the ORM rows onto the columns the verified operations read or
write.  `Category` embeds `app/models/category.py` (description, color, icon
and the SEO columns are never consulted by the tree engine and are omitted);
`Art` and `Pap` embed the columns of `Article` and `Paper` that
`Category.update_counts` consults. -/

structure Category where
  id : Nat
  name : String
  slug : String
  parentId : Option Nat
  level : Nat
  path : String
  isActive : Bool
  isSystem : Bool
  sortOrder : Int
  articleCount : Nat
  paperCount : Nat
deriving DecidableEq, Repr

/-- Article projection: `Article.is_published` is
`status == "published" and is_public` (`app/models/article.py`, line 94). -/
structure Art where
  id : Nat
  categoryId : Option Nat
  status : String
  isPublic : Bool
deriving DecidableEq, Repr

/-- Paper projection.  `id` and `categoryId` embed the `Paper` columns that
`Category.update_counts` consults.  `isPublished` — Modelled from the spec:
the spec states that `paper_count` counts associated *published* content, but
the `Paper` model in the source has no publication-status column at all; this
flag carries the spec's intended notion so the two counts can be compared,
and, faithfully to the source, it is never read by any embedded operation. -/
structure Pap where
  id : Nat
  categoryId : Option Nat
  isPublished : Bool
deriving DecidableEq, Repr

/-- The persisted state the category engine operates on: the `categories`
table plus the `articles` and `papers` rows the count refresh reads. -/
structure CatStore where
  cats : List Category
  arts : List Art
  paps : List Pap
deriving DecidableEq, Repr

/-- Result of one CRUD/API operation: `notFound` embeds a Python `None`
return (HTTP 404), `invalidState` a `ValueError` (HTTP 400). -/
inductive OpResult (α : Type) where
  | ok (a : α)
  | notFound
  | invalidState (msg : String)
deriving DecidableEq, Repr

/-- Modelled from the spec: `CRUDBase.get` — the generic CRUD base class is
not in the source tree (only its subclasses and callers are); the spec's
record store provides read by id. -/
def getCat (s : CatStore) (cid : Nat) : Option Category :=
  s.cats.find? (fun c => c.id = cid)

/-- Write back one row by id (the ORM unit-of-work flush of a modified
persistent object). -/
def setCat (s : CatStore) (c : Category) : CatStore :=
  { s with cats := s.cats.map (fun x => if x.id = c.id then c else x) }

/-- Insert of a new row (`db.add` of a fresh object followed by commit). -/
def addCat (s : CatStore) (c : Category) : CatStore :=
  { s with cats := s.cats ++ [c] }

/-- Fresh autoincrement id for an insert. -/
def nextCatId (s : CatStore) : Nat := (s.cats.map (·.id)).foldr max 0 + 1

/-- All slugs currently in the table. -/
def slugsOf (s : CatStore) : List String := s.cats.map (·.slug)

/-- Embeds `CRUDCategory.get_by_slug` (`app/crud/category.py`, lines 16-18). -/
def get_by_slug (s : CatStore) (slug : String) : Option Category :=
  s.cats.find? (fun c => c.slug = slug)

/-- The `children` relationship: rows whose `parent_id` is this id. -/
def childrenOf (s : CatStore) (cid : Nat) : List Category :=
  s.cats.filter (fun c => c.parentId = some cid)

/-- The `parent` relationship: resolve `parent_id` through the table. -/
def parentOf (s : CatStore) (c : Category) : Option Category :=
  match c.parentId with
  | some pid => getCat s pid
  | none => none

/-- Embeds `Category.update_path` (`app/models/category.py`, lines 149-156):
recompute `path` and `level` of `c` from the given parent. -/
def updatePathFields (parent : Option Category) (c : Category) : Category :=
  match parent with
  | some p => { c with path := p.path ++ "/" ++ c.slug, level := p.level + 1 }
  | none => { c with path := "/" ++ c.slug, level := 0 }

/-- Embeds `Article.is_published`. -/
def artIsPublished (a : Art) : Bool := a.status = "published" && a.isPublic

/-- Embeds `Category.update_counts` (`app/models/category.py`, lines
158-168): `article_count` counts the linked published articles, while
`paper_count` is `len(self.papers)` — every linked paper, unfiltered. -/
def updateCountsFields (s : CatStore) (c : Category) : Category :=
  { c with
    articleCount :=
      (s.arts.filter (fun a => a.categoryId = some c.id && artIsPublished a)).length
    paperCount := (s.paps.filter (fun p => p.categoryId = some c.id)).length }

/-- Embeds the `while current:` ancestor walk of
`CRUDCategory._update_parent_counts` (`app/crud/category.py`, lines 418-424),
starting at the argument (the caller passes the parent).  The walk is bounded
by the table size; on a store whose parent chains are acyclic — every state
the source can reach — this equals the unbounded source loop. -/
def updateAncestorCountsAux (s : CatStore) (cur : Option Category) : Nat → CatStore
  | 0 => s
  | fuel + 1 =>
    match cur with
    | none => s
    | some p =>
      let p' := updateCountsFields s p
      let s' := setCat s p'
      updateAncestorCountsAux s' (parentOf s' p') fuel

/-- Embeds `CRUDCategory._update_parent_counts` applied to `c`: refresh the
counts of every proper ancestor of `c` (not of `c` itself). -/
def updateAncestorCounts (s : CatStore) (c : Category) : CatStore :=
  updateAncestorCountsAux s (parentOf s c) s.cats.length

/-- Embeds `Category.get_all_descendants_ids` (`app/models/category.py`,
lines 141-147): recursively collect the ids below `cid` through the
`children` relationship.  The recursion depth is bounded by the table size;
on acyclic stores this equals the source's unbounded recursion. -/
def descendantIdsAux (s : CatStore) : Nat → Nat → List Nat
  | 0, _ => []
  | fuel + 1, cid =>
    (childrenOf s cid).flatMap (fun ch => ch.id :: descendantIdsAux s fuel ch.id)

/-- Embeds `Category.get_all_descendants_ids` of the row with id `cid`. -/
def get_all_descendants_ids (s : CatStore) (cid : Nat) : List Nat :=
  descendantIdsAux s s.cats.length cid

/-- Boolean string-prefix test (`LIKE '<a>%'`). -/
def strPfx (a b : String) : Bool := isPfx a.toList b.toList

/-- Lexicographic comparison of names, embedding the text ordering of the
`ORDER BY ... name` clauses. -/
def strLexLt : List Char → List Char → Bool
  | [], [] => false
  | [], _ :: _ => true
  | _ :: _, [] => false
  | a :: as, b :: bs => a < b || (a = b && strLexLt as bs)

/-- The `(level, sort_order, name)` ascending key of the descendant query. -/
def catKeyLe (a b : Category) : Bool :=
  a.level < b.level || (a.level = b.level &&
    (a.sortOrder < b.sortOrder || (a.sortOrder = b.sortOrder &&
      (strLexLt a.name.toList b.name.toList || a.name = b.name))))

/-- Stable insertion into a key-sorted list. -/
def insertSorted (c : Category) : List Category → List Category
  | [] => [c]
  | x :: xs => if catKeyLe c x then c :: x :: xs else x :: insertSorted c xs

/-- Stable sort by `(level, sort_order, name)` ascending. -/
def sortCats : List Category → List Category
  | [] => []
  | x :: xs => insertSorted x (sortCats xs)

/-- Embeds `CRUDCategory.get_descendants` with `include_self=False`
(`app/crud/category.py`, lines 99-109): rows whose `path` matches
`'<base.path>/%'`, ordered by `(level, sort_order, name)`. -/
def get_descendants (s : CatStore) (base : Category) : List Category :=
  sortCats (s.cats.filter (fun c => strPfx (base.path ++ "/") c.path))

/-! ### Category engine operations -/

/-- Creation input, embedding `CategoryCreate`
(`app/schemas/category.py`): the fields `create_with_slug` reads. -/
structure CategoryCreate where
  name : String
  slug : Option String
  parentId : Option Nat
  isActive : Bool := true
  isSystem : Bool := false
  sortOrder : Int := 0
deriving DecidableEq, Repr

/-- Embeds the `while self.get_by_slug(...)` collision loop of
`create_with_slug` (`app/crud/category.py`, lines 153-157), searching
`base-k` for `k = 1, 2, …`.  The search is bounded by `|cats| + 1`
candidates; `resolveSlug_spec` below shows this bound always suffices, so
the bounded loop coincides with the source's unbounded one. -/
def resolveSlugAux (s : CatStore) (base : String) : Nat → Nat → String
  | 0, k => base ++ "-" ++ natRepr k
  | fuel + 1, k =>
    let cand := base ++ "-" ++ natRepr k
    if (get_by_slug s cand).isSome then resolveSlugAux s base fuel (k + 1) else cand

/-- The slug actually persisted by `create_with_slug` for requested slug
`base`: `base` itself when free, otherwise the first free `base-k`. -/
def resolveSlug (s : CatStore) (base : String) : String :=
  if (get_by_slug s base).isSome then resolveSlugAux s base (s.cats.length + 1) 1 else base

/-- Embeds `CRUDCategory.create_with_slug` (`app/crud/category.py`, lines
144-181): derive the slug from the name when absent, resolve collisions,
validate the parent (Python truthiness: a `parent_id` of `0` is falsy and
skips validation), insert the row with recomputed path/level, then refresh
the counts up the new ancestor chain. -/
def createWithSlug (s : CatStore) (i : CategoryCreate) : OpResult (CatStore × Category) :=
  let slug0 := match i.slug with
    | some sl => if sl = "" then create_slug_from_name i.name else sl
    | none => create_slug_from_name i.name
  let slug := resolveSlug s slug0
  let parentCheck : OpResult Unit :=
    match i.parentId with
    | some pid =>
      if pid = 0 then .ok () else
        match getCat s pid with
        | none => .invalidState "Parent category not found"
        | some p =>
          if p.isActive then .ok ()
          else .invalidState "Cannot create category under inactive parent"
    | none => .ok ()
  match parentCheck with
  | .ok _ =>
    let c0 : Category :=
      { id := nextCatId s, name := i.name, slug := slug, parentId := i.parentId,
        level := 0, path := "", isActive := i.isActive, isSystem := i.isSystem,
        sortOrder := i.sortOrder, articleCount := 0, paperCount := 0 }
    let c1 := updatePathFields (parentOf s c0) c0
    let s1 := addCat s c1
    .ok (updateAncestorCounts s1 c1, c1)
  | .notFound => .notFound
  | .invalidState m => .invalidState m

/-- Embeds `CRUDCategory.move_category` (`app/crud/category.py`, lines
183-223), line by line: resolve the category (404 when absent); when the new
parent id is truthy, resolve it, reject an inactive target, and reject when
`category_id` is a member of `new_parent.get_all_descendants_ids()`; then
`Category.move_to_parent` (reparent, recompute own path, recompute each
direct child), then recompute every row matched by the descendant path query
— which uses the category's already-updated path — in `(level, sort_order,
name)` order, and finally refresh counts up the new and the old parent
chain. -/
def moveCategory (s : CatStore) (cid : Nat) (npid : Option Nat) :
    OpResult (CatStore × Category) :=
  match getCat s cid with
  | none => .notFound
  | some category =>
    let validation : OpResult (Option Category) :=
      match npid with
      | some p =>
        if p = 0 then .ok none else
          match getCat s p with
          | none => .invalidState "Parent category not found"
          | some np =>
            if !np.isActive then .invalidState "Cannot move category under inactive parent"
            else if cid ∈ get_all_descendants_ids s np.id then
              .invalidState "Cannot move category under its own descendant"
            else .ok (some np)
      | none => .ok none
    match validation with
    | .invalidState m => .invalidState m
    | .notFound => .notFound
    | .ok newParent =>
      let oldParentId := category.parentId
      let c1 := updatePathFields newParent { category with parentId := newParent.map (·.id) }
      let s1 := setCat s c1
      let s2 := (childrenOf s1 cid).foldl
        (fun st ch =>
          match getCat st ch.id with
          | some ch' => setCat st (updatePathFields (parentOf st ch') ch')
          | none => st) s1
      let descIds := (get_descendants s2 c1).map (·.id)
      let s3 := descIds.foldl
        (fun st i =>
          match getCat st i with
          | some d => setCat st (updatePathFields (parentOf st d) d)
          | none => st) s2
      let s4 := match getCat s3 cid with
        | some c' => updateAncestorCounts s3 c'
        | none => s3
      let s5 := match oldParentId with
        | some op =>
          match getCat s4 op with
          | some oldP => updateAncestorCounts s4 oldP
          | none => s4
        | none => s4
      match getCat s5 cid with
      | some c' => .ok (s5, c')
      | none => .notFound

/-- Embeds `CRUDCategory.deactivate` (`app/crud/category.py`, lines
347-364): `None` for a missing id; otherwise set `is_active = False` on
every row matched by the descendant path query, then on the row itself. -/
def deactivate (s : CatStore) (cid : Nat) : OpResult (CatStore × Category) :=
  match getCat s cid with
  | none => .notFound
  | some category =>
    let descIds := (get_descendants s category).map (·.id)
    let s1 := descIds.foldl
      (fun st i =>
        match getCat st i with
        | some d => setCat st { d with isActive := false }
        | none => st) s
    let c' := { category with isActive := false }
    .ok (setCat s1 c', c')

/-- Embeds `CRUDCategory.activate` (`app/crud/category.py`, lines 366-381):
`None` for a missing id; `ValueError` when the parent exists and is
inactive; otherwise set `is_active = True` on this row only. -/
def activate (s : CatStore) (cid : Nat) : OpResult (CatStore × Category) :=
  match getCat s cid with
  | none => .notFound
  | some category =>
    match parentOf s category with
    | some p =>
      if !p.isActive then .invalidState "Cannot activate category with inactive parent"
      else
        let c' := { category with isActive := true }
        .ok (setCat s c', c')
    | none =>
      let c' := { category with isActive := true }
      .ok (setCat s c', c')

/-- Embeds `Category.has_children`: the `children` relationship is
non-empty. -/
def hasChildrenB (s : CatStore) (cid : Nat) : Bool := !(childrenOf s cid).isEmpty

/-- Embeds `Category.total_content_count` (`app/models/category.py`, lines
104-107). -/
def total_content_count (c : Category) : Nat := c.articleCount + c.paperCount

/-- Modelled from the spec: `CRUDBase.remove` — the generic CRUD base class
is not in the source tree; the spec's record store provides delete by id. -/
def removeCat (s : CatStore) (cid : Nat) : CatStore :=
  { s with cats := s.cats.filter (fun c => c.id ≠ cid) }

/-- Embeds the `delete_category` endpoint (`app/api/v1/categories.py`, lines
334-369): 404 when absent, then reject system categories, then categories
with children, then categories with content, and only then remove the row. -/
def delete_category (s : CatStore) (cid : Nat) : OpResult CatStore :=
  match getCat s cid with
  | none => .notFound
  | some category =>
    if category.isSystem then .invalidState "System categories cannot be deleted"
    else if hasChildrenB s cid then .invalidState "Cannot delete category with children"
    else if 0 < total_content_count category then .invalidState "Cannot delete category with content"
    else .ok (removeCat s cid)

/-- Embeds `CRUDCategory.update_all_counts` (`app/crud/category.py`, lines
279-298): recompute both counts of every row and return the new store
together with the number of rows whose counts changed. -/
def update_all_counts (s : CatStore) : CatStore × Nat :=
  ({ s with cats := s.cats.map (fun c => updateCountsFields s c) },
   (s.cats.filter (fun c =>
      let c' := updateCountsFields s c
      (c'.articleCount != c.articleCount) || (c'.paperCount != c.paperCount))).length)

/-! ### Concrete stores and projections used to evaluate the operations -/

/-- An active, non-system category row with zero counts. -/
def mkCat (cid : Nat) (nm sl : String) (pid : Option Nat) (lv : Nat) (pth : String) :
    Category :=
  { id := cid, name := nm, slug := sl, parentId := pid, level := lv, path := pth,
    isActive := true, isSystem := false, sortOrder := 0, articleCount := 0, paperCount := 0 }

/-- The store produced by a successful operation, if any. -/
def resultStore : OpResult (CatStore × Category) → Option CatStore
  | .ok (s, _) => some s
  | _ => none

/-- Whether an operation succeeded. -/
def isOkB : OpResult (CatStore × Category) → Bool
  | .ok _ => true
  | _ => false

/-- The `path` of row `cid` inside an optional store. -/
def pathAt (s : Option CatStore) (cid : Nat) : Option String :=
  s.bind (fun st => (getCat st cid).map (·.path))

/-- The `level` of row `cid` inside an optional store. -/
def levelAt (s : Option CatStore) (cid : Nat) : Option Nat :=
  s.bind (fun st => (getCat st cid).map (·.level))

/-- The `parent_id` of row `cid` inside an optional store. -/
def parentIdAt (s : Option CatStore) (cid : Nat) : Option (Option Nat) :=
  s.bind (fun st => (getCat st cid).map (·.parentId))

/-- A five-node tree: roots `/a` and `/b`; `/a/c` under `/a`; `/a/c/d` under
`c`; `/a/c/d/e` under `d`.  Moving `c` (id 3) under `b` (id 2) exercises a
move of a subtree of depth two. -/
def depth2Store : CatStore :=
  { cats := [mkCat 1 "A" "a" none 0 "/a", mkCat 2 "B" "b" none 0 "/b",
             mkCat 3 "C" "c" (some 1) 1 "/a/c", mkCat 4 "D" "d" (some 3) 2 "/a/c/d",
             mkCat 5 "E" "e" (some 4) 3 "/a/c/d/e"],
    arts := [], paps := [] }

/-- A two-node tree: root `/c` with child `/c/d`.  Moving `c` (id 1) under
its own child `d` (id 2) exercises the cycle check. -/
def cycleStore : CatStore :=
  { cats := [mkCat 1 "C" "c" none 0 "/c", mkCat 2 "D" "d" (some 1) 1 "/c/d"],
    arts := [], paps := [] }

/-- A category row with explicit active flag. -/
def mkCatA (cid : Nat) (nm sl : String) (pid : Option Nat) (lv : Nat) (pth : String)
    (act : Bool) : Category :=
  { id := cid, name := nm, slug := sl, parentId := pid, level := lv, path := pth,
    isActive := act, isSystem := false, sortOrder := 0, articleCount := 0, paperCount := 0 }

/-- A chain `/t` (inactive) → `/t/u` → `/t/u/v`: deactivating `u` must also
deactivate `v`, and activating `u` must fail because its parent `t` is
inactive. -/
def actStore : CatStore :=
  { cats := [mkCatA 1 "T" "t" none 0 "/t" false,
             mkCatA 2 "U" "u" (some 1) 1 "/t/u" true,
             mkCatA 3 "V" "v" (some 2) 2 "/t/u/v" true],
    arts := [], paps := [] }

/-! ### Content-addressed file store

Embeds `app/models/file.py`, `app/crud/file.py` and the upload/download
endpoints of `app/api/v1/files.py`.  Byte content is a list of bytes, the
digest function a parameter (the source fixes it to SHA-256; every claim
below holds for an arbitrary digest).  The blob store is the `uploads/`
directory: a keyed collection with overwriting writes. -/

/-- Byte content of an upload. -/
abbrev ByteContent := List Nat

/-- File metadata row (`app/models/file.py`), projected onto the columns the
verified operations read or write; `width`/`height` are populated
best-effort from image decoding and modelled as absent. -/
structure FileRec where
  id : Nat
  filename : String
  originalFilename : String
  filePath : String
  fileSize : Nat
  mimeType : String
  fileExtension : String
  fileHash : Option String
  fileType : String
  description : Option String
  altText : Option String
  isPublic : Bool
  articleId : Option Nat
  paperId : Option Nat
  downloadCount : Nat
  hasThumbnail : Bool
deriving DecidableEq, Repr

/-- The `files` table plus the on-disk blobs keyed by path. -/
structure FileState where
  files : List FileRec
  blobs : List (String × ByteContent)
deriving DecidableEq, Repr

/-- Modelled from the spec: `CRUDBase.get` for files (the generic CRUD base
class is not in the source tree); read by id. -/
def getFile (st : FileState) (fid : Nat) : Option FileRec :=
  st.files.find? (fun f => f.id = fid)

/-- Write back one file row by id. -/
def setFile (st : FileState) (f : FileRec) : FileState :=
  { st with files := st.files.map (fun x => if x.id = f.id then f else x) }

/-- Modelled from the spec: `CRUDBase.create` for files (insert of a fresh
row with an autoincremented id). -/
def addFile (st : FileState) (f : FileRec) : FileState :=
  { st with files := st.files ++ [f] }

/-- Fresh autoincrement id for a file insert. -/
def nextFileId (st : FileState) : Nat := (st.files.map (·.id)).foldr max 0 + 1

/-- Embeds `CRUDFile.get_by_hash` (`app/crud/file.py`, lines 16-18). -/
def get_by_hash (st : FileState) (h : String) : Option FileRec :=
  st.files.find? (fun f => f.fileHash = some h)

/-- Embeds `Path.write_bytes`: create or overwrite the blob at the key. -/
def putBlob (st : FileState) (key : String) (b : ByteContent) : FileState :=
  if (st.blobs.find? (fun kv => kv.1 = key)).isSome then
    { st with blobs := st.blobs.map (fun kv => if kv.1 = key then (key, b) else kv) }
  else { st with blobs := st.blobs ++ [(key, b)] }

/-- Embeds `Path.exists` / read of a stored blob. -/
def getBlob (st : FileState) (key : String) : Option ByteContent :=
  (st.blobs.find? (fun kv => kv.1 = key)).map (·.2)

/-- `ALLOWED_EXTENSIONS` of `app/api/v1/files.py`, in dict order. -/
def allowedExtensions : List (String × List String) :=
  [("image", [".jpg", ".jpeg", ".png", ".gif", ".bmp", ".webp", ".svg"]),
   ("document", [".pdf", ".doc", ".docx", ".txt", ".md", ".csv", ".xls", ".xlsx"]),
   ("video", [".mp4", ".avi", ".mov", ".wmv", ".flv", ".webm"]),
   ("audio", [".mp3", ".wav", ".flac", ".aac", ".ogg"])]

/-- `MAX_FILE_SIZE` of `app/api/v1/files.py`. -/
def MAX_FILE_SIZE : Nat := 100 * 1024 * 1024

/-- `Path(filename).suffix` on a plain file name: the final dotted
extension, empty when there is no dot, when the name ends in a dot, or when
the only dot is the leading one. -/
def pySuffix (name : String) : String :=
  let rev := name.toList.reverse
  let ext := rev.takeWhile (fun c => c ≠ '.')
  if ext.length = rev.length then ""
  else if ext.isEmpty then ""
  else if ext.length + 1 = rev.length then ""
  else String.mk ('.' :: ext.reverse)

/-- Upload failure modes of `validate_file`: HTTP 400 for a missing
filename, 413 for an oversized payload, 400 for a disallowed extension. -/
inductive UploadError where
  | emptyFilename
  | payloadTooLarge
  | unsupportedExtension
deriving DecidableEq, Repr

/-- Embeds `validate_file` (`app/api/v1/files.py`, lines 48-84): reject an
empty filename; reject a declared size that is truthy and above the
ceiling; classify the lower-cased extension through the allow-list buckets
in dict order; return the bucket and the extension without its dots. -/
def validate_file (filename : String) (size : Option Nat) :
    Except UploadError (String × String) :=
  if filename = "" then .error .emptyFilename
  else
    let sizeExceeded := match size with
      | some sz => decide (sz ≠ 0) && decide (MAX_FILE_SIZE < sz)
      | none => false
    if sizeExceeded then .error .payloadTooLarge
    else
      let extension := String.mk ((pySuffix filename).toList.map pyToLower)
      match allowedExtensions.find? (fun te => extension ∈ te.2) with
      | some te => .ok (te.1, String.mk (extension.toList.dropWhile (fun c => c = '.')))
      | none => .error .unsupportedExtension

/-- Upload form fields of the `upload_file` endpoint. -/
structure UploadForm where
  filename : String
  size : Option Nat
  contentType : Option String
  description : Option String := none
  altText : Option String := none
  isPublic : Bool := true
  articleId : Option Nat := none
  paperId : Option Nat := none
deriving DecidableEq, Repr

/-- The blob key of `save_uploaded_file`:
`uploads/<file_type>/<hash>.<extension>`. -/
def blobKey (fileType fileHash extension : String) : String :=
  "uploads" ++ "/" ++ fileType ++ "/" ++ fileHash ++ "." ++ extension

/-- The metadata row `upload_file` persists on a dedup miss
(`FileCreate(...)` at `app/api/v1/files.py`, lines 404-420): the record's
`filename` is the uploaded name, the stored path the hash-derived blob key,
and width/height stay absent in this embedding. -/
def mkUploadRec (st : FileState) (form : UploadForm) (fileType extension h : String)
    (content : ByteContent) : FileRec :=
  { id := nextFileId st, filename := form.filename,
    originalFilename := form.filename, filePath := blobKey fileType h extension,
    fileSize := content.length,
    mimeType := form.contentType.getD "application/octet-stream",
    fileExtension := extension, fileHash := some h, fileType := fileType,
    description := form.description, altText := form.altText,
    isPublic := form.isPublic, articleId := form.articleId,
    paperId := form.paperId, downloadCount := 0, hasThumbnail := false }

/-- Embeds the `upload_file` endpoint (`app/api/v1/files.py`, lines
340-440): validate, digest the content, return the existing row untouched
on a digest hit, and otherwise write the blob at the derived key and insert
a metadata row. -/
def upload_file (hash : ByteContent → String) (st : FileState) (form : UploadForm)
    (content : ByteContent) : Except UploadError (FileState × Nat) :=
  match validate_file form.filename form.size with
  | .error e => .error e
  | .ok (fileType, extension) =>
    let h := hash content
    match get_by_hash st h with
    | some existing => .ok (st, existing.id)
    | none =>
      let st1 := putBlob st (blobKey fileType h extension) content
      let nf := mkUploadRec st form fileType extension h content
      .ok (addFile st1 nf, nf.id)

/-- A sequence of uploads of the same byte content, stopping at the first
error. -/
def uploadSeq (hash : ByteContent → String) (st : FileState) (content : ByteContent) :
    List UploadForm → Except UploadError (FileState × List Nat)
  | [] => .ok (st, [])
  | f :: rest =>
    match upload_file hash st f content with
    | .error e => .error e
    | .ok (st1, fid) =>
      match uploadSeq hash st1 content rest with
      | .error e => .error e
      | .ok (st2, ids) => .ok (st2, fid :: ids)

/-- Embeds `CRUDFile.associate_with_article` (`app/crud/file.py`, lines
248-259): set the article association and clear the paper one. -/
def associate_with_article (st : FileState) (fid aid : Nat) :
    OpResult (FileState × FileRec) :=
  match getFile st fid with
  | none => .notFound
  | some f =>
    let f' := { f with articleId := some aid, paperId := none }
    .ok (setFile st f', f')

/-- Embeds `CRUDFile.associate_with_paper` (`app/crud/file.py`, lines
261-272): set the paper association and clear the article one. -/
def associate_with_paper (st : FileState) (fid pid : Nat) :
    OpResult (FileState × FileRec) :=
  match getFile st fid with
  | none => .notFound
  | some f =>
    let f' := { f with paperId := some pid, articleId := none }
    .ok (setFile st f', f')

/-- Embeds `CRUDFile.remove_associations` (`app/crud/file.py`, lines
274-283): clear both association columns. -/
def remove_associations (st : FileState) (fid : Nat) :
    OpResult (FileState × FileRec) :=
  match getFile st fid with
  | none => .notFound
  | some f =>
    let f' := { f with articleId := none, paperId := none }
    .ok (setFile st f', f')

/-- Download failure modes of the `download_file` endpoint: 404 missing
row, 403 non-public, 404 missing blob. -/
inductive DownloadError where
  | notFound
  | notPublic
  | notOnDisk
deriving DecidableEq, Repr

/-- Embeds the `download_file` endpoint (`app/api/v1/files.py`, lines
289-314): 404 for a missing row, 403 for a non-public file — both before
any state change — 404 for a missing blob, and otherwise one increment of
`download_count` before returning path, original filename and mime type. -/
def download_file (st : FileState) (fid : Nat) :
    Except DownloadError (FileState × (String × String × String)) :=
  match getFile st fid with
  | none => .error .notFound
  | some f =>
    if !f.isPublic then .error .notPublic
    else
      match getBlob st f.filePath with
      | none => .error .notOnDisk
      | some _ =>
        let f' := { f with downloadCount := f.downloadCount + 1 }
        .ok (setFile st f', (f.filePath, f.originalFilename, f.mimeType))

/-- A document file row with the given path, visibility, associations and
download count. -/
def mkFile (fid : Nat) (path : String) (pub : Bool) (aid pid : Option Nat) (dl : Nat) :
    FileRec :=
  { id := fid, filename := "f.txt", originalFilename := "f.txt", filePath := path,
    fileSize := 1, mimeType := "text/plain", fileExtension := "txt",
    fileHash := some ("h" ++ natRepr fid), fileType := "document",
    description := none, altText := none, isPublic := pub,
    articleId := aid, paperId := pid, downloadCount := dl, hasThumbnail := false }

/-- A store with a public file (id 1, blob on disk, a paper association to
clear) and a non-public file (id 2). -/
def fileStoreW : FileState :=
  { files := [mkFile 1 "k1" true none (some 7) 0, mkFile 2 "k2" false none none 3],
    blobs := [("k1", [7]), ("k2", [8])] }

/-- The state of a successful upload sequence (empty state on error). -/
def exOkState (r : Except UploadError (FileState × List Nat)) : FileState :=
  match r with
  | .ok (s, _) => s
  | .error _ => { files := [], blobs := [] }

/-- The returned ids of a successful upload sequence. -/
def exOkIds (r : Except UploadError (FileState × List Nat)) : List Nat :=
  match r with
  | .ok (_, l) => l
  | .error _ => []

/-- An upload form for a `.pdf` name with no declared size. -/
def c7FormA : UploadForm :=
  { filename := "x.pdf", size := none, contentType := none }

/-- Two uploads of the same content under different names. -/
def c7Forms : List UploadForm :=
  [{ filename := "a.txt", size := some 2, contentType := some "text/plain" },
   { filename := "b.pdf", size := none, contentType := none }]

/-- The run of the two uploads from the empty state with a constant
digest. -/
def c7Run : Except UploadError (FileState × List Nat) :=
  uploadSeq (fun _ => "k") { files := [], blobs := [] } [1, 2] c7Forms

/-- The number of directly associated published articles of category
`cid` — what `update_counts` stores into `article_count`. -/
def publishedArticleCount (s : CatStore) (cid : Nat) : Nat :=
  (s.arts.filter (fun a => a.categoryId = some cid && artIsPublished a)).length

/-- The number of all directly associated papers of category `cid` — what
`update_counts` stores into `paper_count` (`len(self.papers)`). -/
def linkedPaperCount (s : CatStore) (cid : Nat) : Nat :=
  (s.paps.filter (fun p => p.categoryId = some cid)).length

/-- Modelled from the spec: the number of directly associated *published*
papers of category `cid`, the count the spec prescribes for `paper_count`.
The `Paper` model has no publication column, so this filters on the
spec-modelled `isPublished` flag of `Pap`. -/
def specPublishedPaperCount (s : CatStore) (cid : Nat) : Nat :=
  (s.paps.filter (fun p => p.categoryId = some cid && p.isPublished)).length

/-- One category holding a single linked paper that is not published in the
spec's sense. -/
def paperStore : CatStore :=
  { cats := [mkCat 1 "P" "p" none 0 "/p"], arts := [],
    paps := [{ id := 1, categoryId := some 1, isPublished := false }] }

/-- The slug the collision loop assigns to the `t`-th create of the same
requested slug `base` into a base-fresh store: `base` itself first, then
`base-1`, `base-2`, …. -/
def pattAt (base : String) (t : Nat) : String :=
  if t = 0 then base else base ++ "-" ++ natRepr t

/-- The first `m` slugs of the collision pattern. -/
def pattList (base : String) (m : Nat) : List String :=
  (List.range m).map (pattAt base)

/-- A sequence of create calls, stopping at the first error. -/
def createSeq (s : CatStore) : List CategoryCreate → OpResult (CatStore × List Category)
  | [] => .ok (s, [])
  | i :: rest =>
    match createWithSlug s i with
    | .ok (s1, c) =>
      match createSeq s1 rest with
      | .ok (s2, cs) => .ok (s2, c :: cs)
      | .notFound => .notFound
      | .invalidState m => .invalidState m
    | .notFound => .notFound
    | .invalidState m => .invalidState m

/-- The store of a successful create sequence (empty store on error). -/
def seqOkStore (r : OpResult (CatStore × List Category)) : CatStore :=
  match r with
  | .ok (s, _) => s
  | _ => { cats := [], arts := [], paps := [] }

/-- The created rows of a successful create sequence. -/
def seqOkCats (r : OpResult (CatStore × List Category)) : List Category :=
  match r with
  | .ok (_, l) => l
  | _ => []

/-- A store holding one root category `tech`, fresh for the base `ai`. -/
def c4Store : CatStore :=
  { cats := [mkCat 1 "Tech" "tech" none 0 "/tech"], arts := [], paps := [] }

/-- Three creates requesting the same slug `ai`: one at the root and two
under the `tech` parent. -/
def c4Inputs : List CategoryCreate :=
  [{ name := "AI", slug := some "ai", parentId := none },
   { name := "AI", slug := some "ai", parentId := some 1 },
   { name := "AI", slug := some "ai", parentId := some 1 }]

/-! ### Well-formed stores and the tree-descendant relation -/

/-- One row satisfies the materialized-path invariant: a root's path is
`"/" + slug` at level 0, a child's path is its parent's path plus `"/" +
slug` at the parent's level plus one. -/
def catPathOkB (s : CatStore) (c : Category) : Bool :=
  match c.parentId with
  | none => c.path = "/" ++ c.slug && c.level = 0
  | some pid =>
    match getCat s pid with
    | some p => c.path = p.path ++ "/" ++ c.slug && c.level = p.level + 1
    | none => false

/-- A store with distinct ids whose every row satisfies the path
invariant — the states the engine is meant to preserve. -/
def WellFormed (s : CatStore) : Prop :=
  (s.cats.map (·.id)).Nodup ∧ ∀ c ∈ s.cats, catPathOkB s c = true

/-- A parent edge between ids: the row with id `c` has `parent_id = p`. -/
def ChildEdge (s : CatStore) (p c : Nat) : Prop :=
  ∃ cc ∈ s.cats, cc.id = c ∧ cc.parentId = some p

/-- Proper tree descendant, as the transitive closure of the parent edge. -/
def IsDesc (s : CatStore) (a d : Nat) : Prop := Relation.TransGen (ChildEdge s) a d

end KS

namespace KS

/-! ### Claims C1-C3 -/

/-- C1: the spec claims that after every successful `move` each category's
`path` equals its parent's path plus `/` plus its slug (and `level` the
parent's level plus one), for the moved node and for every one of its
descendants — no node retains a stale pre-move path.  The code violates
this: moving `c` (with child `d` and grandchild `e`) under `b` rewrites `c`
and `d`, but the descendant query it then runs matches against the already
updated path `/b/c/…`, so the grandchild `e` — whose row still carries the
pre-move path `/a/c/d/e` — is never found: the move succeeds and leaves
`e.path = "/a/c/d/e"` and `e.level = 3` although `e`'s parent `d` now has
path `/b/c/d`, violating the invariant. -/
theorem C1_move_leaves_stale_grandchild_path :
    isOkB (moveCategory depth2Store 3 (some 2)) = true ∧
    pathAt (resultStore (moveCategory depth2Store 3 (some 2))) 4 = some "/b/c/d" ∧
    pathAt (resultStore (moveCategory depth2Store 3 (some 2))) 5 = some "/a/c/d/e" ∧
    levelAt (resultStore (moveCategory depth2Store 3 (some 2))) 5 = some 3 ∧
    parentIdAt (resultStore (moveCategory depth2Store 3 (some 2))) 5 = some (some 4) ∧
    "/a/c/d/e" ≠ "/b/c/d" ++ "/" ++ "e" := by
  decide

/-- C2: the spec claims that moving a category under itself or under one of
its own descendants fails with InvalidState and leaves the tree unchanged.
The code's check tests `category_id in new_parent.get_all_descendants_ids()`
— whether the moved node is a descendant of the target, which is the
converse of a cycle — so moving `c` (id 1) under its own child `d` (id 2)
is not rejected: the move returns success and reparents `c` under `d`,
committing a parent cycle with corrupted paths. -/
theorem C2_move_under_own_descendant_not_rejected :
    isOkB (moveCategory cycleStore 1 (some 2)) = true ∧
    parentIdAt (resultStore (moveCategory cycleStore 1 (some 2))) 1 = some (some 2) ∧
    pathAt (resultStore (moveCategory cycleStore 1 (some 2))) 1 = some "/c/d/c" := by
  decide

/-- C3 counterexample: the spec claims `slugify("Python 3.12") =
"python-3-12"`, but the pipeline deletes characters matching `[^\w\s-]` —
including the period — instead of hyphenating them, so the code produces
`"python-312"`. -/
theorem C3_slugify_period_counterexample :
    create_slug_from_name "Python 3.12" ≠ "python-3-12" := by
  decide

theorem isPfx_refl_append (a b : List Char) : isPfx a (a ++ b) = true := by
  induction a with
  | nil => rfl
  | cons c as ih => simp [isPfx, ih]

theorem isPfx_trans {a b c : List Char} (h1 : isPfx a b = true) (h2 : isPfx b c = true) :
    isPfx a c = true := by
  induction a generalizing b c with
  | nil => rfl
  | cons x as ih =>
    cases b with
    | nil => simp [isPfx] at h1
    | cons y bs =>
      cases c with
      | nil => simp [isPfx] at h2
      | cons z cs =>
        simp only [isPfx, Bool.and_eq_true, decide_eq_true_eq] at h1 h2 ⊢
        exact ⟨h1.1.trans h2.1, ih h1.2 h2.2⟩

theorem strToList_append (a b : String) : (a ++ b).toList = a.toList ++ b.toList := by
  simp [String.toList, String.data_append]

theorem strPfx_self_append (a b : String) : strPfx a (a ++ b) = true := by
  unfold strPfx
  rw [strToList_append]
  exact isPfx_refl_append _ _

theorem strPfx_trans {a b c : String} (h1 : strPfx a b = true) (h2 : strPfx b c = true) :
    strPfx a c = true :=
  isPfx_trans h1 h2

theorem mem_insertSorted {c x : Category} {l : List Category} :
    x ∈ insertSorted c l ↔ x = c ∨ x ∈ l := by
  induction l with
  | nil => simp [insertSorted]
  | cons y ys ih =>
    by_cases h : catKeyLe c y = true
    · simp [insertSorted, h]
    · simp only [insertSorted, if_neg h, List.mem_cons, ih]
      tauto

theorem mem_sortCats {x : Category} {l : List Category} : x ∈ sortCats l ↔ x ∈ l := by
  induction l with
  | nil => simp [sortCats]
  | cons y ys ih => simp [sortCats, mem_insertSorted, ih]

theorem getCat_eq_some {s : CatStore} {cid : Nat} {c : Category}
    (h : getCat s cid = some c) : c ∈ s.cats ∧ c.id = cid := by
  refine ⟨List.mem_of_find?_eq_some h, ?_⟩
  have := List.find?_some h
  simpa using this

theorem getCat_of_mem {s : CatStore} (hn : (s.cats.map (·.id)).Nodup) {c : Category}
    (hc : c ∈ s.cats) : getCat s c.id = some c := by
  cases h : getCat s c.id with
  | none =>
    rw [getCat, List.find?_eq_none] at h
    exact absurd (by simp : decide (c.id = c.id) = true) (h c hc)
  | some d =>
    obtain ⟨hdmem, hdid⟩ := getCat_eq_some h
    have : d = c := List.inj_on_of_nodup_map hn hdmem hc (by simpa using hdid)
    rw [this]

theorem setCat_cats (s : CatStore) (c : Category) :
    (setCat s c).cats = s.cats.map (fun x => if x.id = c.id then c else x) := rfl

theorem setCat_map_id (s : CatStore) (c : Category) :
    (setCat s c).cats.map (·.id) = s.cats.map (·.id) := by
  rw [setCat_cats, List.map_map]
  apply List.map_congr_left
  intro x _
  by_cases h : x.id = c.id <;> simp [Function.comp, h]

theorem mem_setCat_self {s : CatStore} {c x : Category}
    (hx : x ∈ (setCat s c).cats) (hid : x.id = c.id) : x = c := by
  rw [setCat_cats] at hx
  obtain ⟨y, _, hxy⟩ := List.mem_map.mp hx
  by_cases h : y.id = c.id
  · rw [if_pos h] at hxy; exact hxy.symm
  · rw [if_neg h] at hxy; rw [hxy] at h; exact absurd hid h

theorem mem_setCat_other {s : CatStore} {c x : Category}
    (hx : x ∈ (setCat s c).cats) (hid : x.id ≠ c.id) : x ∈ s.cats := by
  rw [setCat_cats] at hx
  obtain ⟨y, hy, hxy⟩ := List.mem_map.mp hx
  by_cases h : y.id = c.id
  · rw [if_pos h] at hxy; rw [← hxy] at hid; exact absurd rfl hid
  · rw [if_neg h] at hxy; rw [← hxy]; exact hy

/-- Under the path invariant, the path of every proper tree descendant of
`a` extends `a.path ++ "/"` — so the `LIKE '<a.path>/%'` descendant query
finds every tree descendant. -/
theorem desc_path_strPfx {s : CatStore} (hwf : WellFormed s) {a : Category}
    (ha : a ∈ s.cats) {x : Nat} (h : Relation.TransGen (ChildEdge s) a.id x) :
    ∀ d ∈ s.cats, d.id = x → strPfx (a.path ++ "/") d.path = true := by
  obtain ⟨hn, hinv⟩ := hwf
  induction h with
  | @single y hedge =>
    intro d hd hdx
    obtain ⟨cc, hcc, hccid, hccp⟩ := hedge
    have hccd : cc = d := List.inj_on_of_nodup_map hn hcc hd (by simp [hccid, hdx])
    subst hccd
    have hok := hinv cc hcc
    simp only [catPathOkB, hccp, getCat_of_mem hn ha, Bool.and_eq_true,
      decide_eq_true_eq] at hok
    rw [hok.1]
    exact strPfx_self_append _ _
  | @tail y z hT hedge ih =>
    intro d hd hdx
    obtain ⟨cc, hcc, hccid, hccp⟩ := hedge
    have hccd : cc = d := List.inj_on_of_nodup_map hn hcc hd (by simp [hccid, hdx])
    subst hccd
    have hok := hinv cc hcc
    simp only [catPathOkB, hccp] at hok
    cases hp : getCat s y with
    | none => rw [hp] at hok; simp at hok
    | some p =>
      rw [hp] at hok
      simp only [Bool.and_eq_true, decide_eq_true_eq] at hok
      obtain ⟨hpmem, hpid⟩ := getCat_eq_some hp
      have hpre : strPfx (a.path ++ "/") p.path = true := ih p hpmem hpid
      have hstep : strPfx p.path cc.path = true := by
        rw [hok.1]
        have hassoc : p.path ++ "/" ++ cc.slug = p.path ++ ("/" ++ cc.slug) := by
          simp [String.append_assoc]
        rw [hassoc]
        exact strPfx_self_append _ _
      exact strPfx_trans hpre hstep

theorem deactFold_keeps_inactive (ids : List Nat) (s : CatStore) (i : Nat)
    (h : ∀ x ∈ s.cats, x.id = i → x.isActive = false) :
    ∀ x ∈ (ids.foldl (fun st j =>
        match getCat st j with
        | some d => setCat st { d with isActive := false }
        | none => st) s).cats, x.id = i → x.isActive = false := by
  induction ids generalizing s with
  | nil => simpa using h
  | cons j rest ih =>
    rw [List.foldl_cons]
    cases hj : getCat s j with
    | none => simp only [hj]; exact ih s h
    | some d =>
      simp only [hj]
      apply ih
      intro x hx hxi
      by_cases hxd : x.id = d.id
      · have hx' := mem_setCat_self hx hxd
        rw [hx']
      · exact h x (mem_setCat_other hx hxd) hxi

theorem deactFold_inactive_of_mem (ids : List Nat) (s : CatStore) (i : Nat)
    (hi : i ∈ ids) :
    ∀ x ∈ (ids.foldl (fun st j =>
        match getCat st j with
        | some d => setCat st { d with isActive := false }
        | none => st) s).cats, x.id = i → x.isActive = false := by
  induction ids generalizing s with
  | nil => cases hi
  | cons j rest ih =>
    rw [List.foldl_cons]
    rcases List.mem_cons.mp hi with hij | hirest
    · subst hij
      cases hj : getCat s i with
      | none =>
        simp only [hj]
        apply deactFold_keeps_inactive
        intro x hx hxi
        have := List.find?_eq_none.mp hj x hx
        simp [hxi] at this
      | some d =>
        simp only [hj]
        apply deactFold_keeps_inactive
        intro x hx hxi
        have hdi : d.id = i := by simpa using List.find?_some hj
        have hx' := mem_setCat_self hx (by rw [hxi, hdi])
        rw [hx']
    · cases hj : getCat s j with
      | none => simp only [hj]; exact ih s hirest
      | some d => simp only [hj]; exact ih _ hirest

theorem deactFold_map_id (ids : List Nat) (s : CatStore) :
    (ids.foldl (fun st j =>
        match getCat st j with
        | some d => setCat st { d with isActive := false }
        | none => st) s).cats.map (·.id) = s.cats.map (·.id) := by
  induction ids generalizing s with
  | nil => rfl
  | cons j rest ih =>
    rw [List.foldl_cons]
    cases hj : getCat s j with
    | none => simp only [hj]; exact ih s
    | some d => simp only [hj]; rw [ih]; exact setCat_map_id _ _

theorem deactivate_eq (s : CatStore) (cid : Nat) (c : Category)
    (hc : getCat s cid = some c) :
    deactivate s cid = .ok
      (setCat (((get_descendants s c).map (·.id)).foldl (fun st j =>
          match getCat st j with
          | some d => setCat st { d with isActive := false }
          | none => st) s) { c with isActive := false },
       { c with isActive := false }) := by
  simp only [deactivate, hc]

/-- C5: on an existing category, `deactivate` sets `is_active = false` on
the category and on every one of its tree descendants, regardless of prior
state; `activate` fails with InvalidState when the parent exists and is
inactive, and on success sets `is_active = true` on the named category only,
leaving every other row untouched. -/
theorem C5_deactivate_cascades_activate_is_local
    (s : CatStore) (hwf : WellFormed s) (cid : Nat) (c : Category)
    (hc : getCat s cid = some c) :
    (∃ s1 c1, deactivate s cid = OpResult.ok (s1, c1) ∧
       ∀ d ∈ s1.cats, (d.id = cid ∨ IsDesc s cid d.id) → d.isActive = false) ∧
    (∀ p, parentOf s c = some p → p.isActive = false →
       activate s cid = OpResult.invalidState "Cannot activate category with inactive parent") ∧
    (∀ s2 c2, activate s cid = OpResult.ok (s2, c2) →
       c2 = { c with isActive := true } ∧
       (∀ x ∈ s2.cats, x.id = cid → x = { c with isActive := true }) ∧
       (∀ x ∈ s2.cats, x.id ≠ cid → x ∈ s.cats)) := by
  obtain ⟨hcmem, hcid⟩ := getCat_eq_some hc
  have key : ∀ x ∈ (setCat s { c with isActive := true }).cats,
      (x.id = cid → x = { c with isActive := true }) ∧ (x.id ≠ cid → x ∈ s.cats) := by
    intro x hx
    constructor
    · intro hxi; exact mem_setCat_self hx (hxi.trans hcid.symm)
    · intro hxi; exact mem_setCat_other hx (fun h => hxi (h.trans hcid))
  refine ⟨?_, ?_, ?_⟩
  · refine ⟨_, _, deactivate_eq s cid c hc, ?_⟩
    intro d hd hcase
    by_cases hdc : d.id = cid
    · have hd' := mem_setCat_self hd (hdc.trans hcid.symm)
      rw [hd']
    · have hdesc : IsDesc s cid d.id := by
        rcases hcase with h | h
        · exact absurd h hdc
        · exact h
      have hdF := mem_setCat_other hd (fun h => hdc (h.trans hcid))
      have hmap := deactFold_map_id ((get_descendants s c).map (·.id)) s
      have hdid_mem : d.id ∈ s.cats.map (·.id) := by
        rw [← hmap]
        exact List.mem_map_of_mem _ hdF
      obtain ⟨d0, hd0, hd0id⟩ := List.mem_map.mp hdid_mem
      have hT : Relation.TransGen (ChildEdge s) c.id d0.id := by
        rw [hcid, hd0id]; exact hdesc
      have hpre := desc_path_strPfx hwf hcmem hT d0 hd0 rfl
      have hd0desc : d0 ∈ get_descendants s c := by
        rw [get_descendants, mem_sortCats]
        exact List.mem_filter.mpr ⟨hd0, hpre⟩
      have hmemIds : d.id ∈ (get_descendants s c).map (·.id) := by
        rw [← hd0id]
        exact List.mem_map_of_mem _ hd0desc
      exact deactFold_inactive_of_mem _ s d.id hmemIds d hdF rfl
  · intro p hp hpin
    simp [activate, hc, hp, hpin]
  · intro s2 c2 hok
    simp only [activate, hc] at hok
    cases hp : parentOf s c with
    | none =>
      simp only [hp, OpResult.ok.injEq, Prod.mk.injEq] at hok
      obtain ⟨hs2, hc2⟩ := hok
      subst hs2
      exact ⟨hc2.symm, fun x hx hxi => (key x hx).1 hxi, fun x hx hxi => (key x hx).2 hxi⟩
    | some p =>
      cases hpa : p.isActive with
      | false => simp [hp, hpa] at hok
      | true =>
        simp only [hp, hpa, Bool.not_true, Bool.false_eq_true, if_false,
          OpResult.ok.injEq, Prod.mk.injEq] at hok
        obtain ⟨hs2, hc2⟩ := hok
        subst hs2
        exact ⟨hc2.symm, fun x hx hxi => (key x hx).1 hxi, fun x hx hxi => (key x hx).2 hxi⟩

/-- C5 witness: in the concrete chain `/t` (inactive) → `/t/u` → `/t/u/v`,
deactivating `u` succeeds and leaves `u` and its descendant `v` inactive,
and activating `u` is rejected because its parent `t` is inactive. -/
theorem C5_witness :
    (∃ s1 c1, deactivate actStore 2 = OpResult.ok (s1, c1) ∧
       ∀ d ∈ s1.cats, (d.id = 2 ∨ IsDesc actStore 2 d.id) → d.isActive = false) ∧
    activate actStore 2 = OpResult.invalidState "Cannot activate category with inactive parent" :=
  ⟨(C5_deactivate_cascades_activate_is_local actStore ⟨by decide, by decide⟩ 2
      (mkCatA 2 "U" "u" (some 1) 1 "/t/u" true) (by decide)).1,
   (C5_deactivate_cascades_activate_is_local actStore ⟨by decide, by decide⟩ 2
      (mkCatA 2 "U" "u" (some 1) 1 "/t/u" true) (by decide)).2.1
     (mkCatA 1 "T" "t" none 0 "/t" false) (by decide) (by decide)⟩

theorem find?_filter_ne (l : List Category) (cid x : Nat) (hx : x ≠ cid) :
    (l.filter (fun c => c.id ≠ cid)).find? (fun c => c.id = x) =
      l.find? (fun c => c.id = x) := by
  induction l with
  | nil => rfl
  | cons c0 rest ih =>
    rw [List.filter_cons]
    by_cases h0 : c0.id = cid
    · have hkeep : (decide (c0.id ≠ cid)) = false := by simp [h0]
      rw [hkeep, if_neg (by simp)]
      have hb : (decide (c0.id = x)) = false := by
        simp only [decide_eq_false_iff_not]
        exact fun hh => hx (hh.symm.trans h0)
      rw [List.find?_cons, hb]
      exact ih
    · have hkeep : (decide (c0.id ≠ cid)) = true := by simp [h0]
      rw [hkeep, if_pos rfl, List.find?_cons, List.find?_cons]
      cases hb : (decide (c0.id = x)) with
      | true => rfl
      | false => exact ih

theorem getCat_removeCat_self (s : CatStore) (cid : Nat) :
    getCat (removeCat s cid) cid = none := by
  rw [getCat, List.find?_eq_none]
  intro x hx
  have := (List.mem_filter.mp hx).2
  simp only [decide_eq_true_eq] at this ⊢
  exact this

theorem getCat_removeCat_other (s : CatStore) (cid x : Nat) (hx : x ≠ cid) :
    getCat (removeCat s cid) x = getCat s x :=
  find?_filter_ne s.cats cid x hx

/-- C6: `delete(id)` on an existing category fails with InvalidState when it
is a system category, or has at least one child, or has
`article_count + paper_count > 0` — failing before any mutation, so the
store is unchanged — and succeeds otherwise, after which the deleted id
resolves to nothing while every other id resolves exactly as before. -/
theorem C6_delete_only_empty_nonsystem_leaf
    (s : CatStore) (cid : Nat) (c : Category) (hc : getCat s cid = some c) :
    (c.isSystem = true →
       delete_category s cid = OpResult.invalidState "System categories cannot be deleted") ∧
    (c.isSystem = false → hasChildrenB s cid = true →
       delete_category s cid = OpResult.invalidState "Cannot delete category with children") ∧
    (c.isSystem = false → hasChildrenB s cid = false → 0 < c.articleCount + c.paperCount →
       delete_category s cid = OpResult.invalidState "Cannot delete category with content") ∧
    (c.isSystem = false → hasChildrenB s cid = false → c.articleCount + c.paperCount = 0 →
       delete_category s cid = OpResult.ok (removeCat s cid) ∧
       getCat (removeCat s cid) cid = none ∧
       ∀ x, x ≠ cid → getCat (removeCat s cid) x = getCat s x) := by
  refine ⟨?_, ?_, ?_, ?_⟩
  · intro h
    simp [delete_category, hc, h]
  · intro h1 h2
    simp [delete_category, hc, h1, h2]
  · intro h1 h2 h3
    simp [delete_category, hc, h1, h2, total_content_count, h3]
  · intro h1 h2 h3
    refine ⟨?_, getCat_removeCat_self s cid, fun x hx => getCat_removeCat_other s cid x hx⟩
    simp [delete_category, hc, h1, h2, total_content_count, h3]

/-- C6 witness: in the concrete five-node tree, deleting the childless,
empty, non-system leaf `e` (id 5) succeeds and id 5 becomes unresolvable
while all other ids resolve as before. -/
theorem C6_witness :
    delete_category depth2Store 5 = OpResult.ok (removeCat depth2Store 5) ∧
    getCat (removeCat depth2Store 5) 5 = none ∧
    ∀ x, x ≠ 5 → getCat (removeCat depth2Store 5) x = getCat depth2Store x :=
  (C6_delete_only_empty_nonsystem_leaf depth2Store 5 (mkCat 5 "E" "e" (some 4) 3 "/a/c/d/e")
    (by decide)).2.2.2 rfl (by decide) rfl

theorem findSet_self (l : List FileRec) (fid : Nat) (f f' : FileRec)
    (h : l.find? (fun x => x.id = fid) = some f) (hid : f'.id = f.id) :
    (l.map (fun x => if x.id = f'.id then f' else x)).find? (fun x => x.id = fid) =
      some f' := by
  have hfid : f.id = fid := by simpa using List.find?_some h
  induction l with
  | nil => simp at h
  | cons y ys ih =>
    rw [List.map_cons, List.find?_cons]
    cases hy : (decide (y.id = fid)) with
    | true =>
      have hyid : y.id = fid := of_decide_eq_true hy
      have hhead : (if y.id = f'.id then f' else y) = f' :=
        if_pos (by rw [hyid, hid, hfid])
      rw [hhead]
      have : (decide (f'.id = fid)) = true := decide_eq_true (by rw [hid, hfid])
      rw [this]
    | false =>
      have hyid : ¬(y.id = fid) := of_decide_eq_false hy
      have hhead : (if y.id = f'.id then f' else y) = y :=
        if_neg (fun hh => hyid (hh.trans (hid.trans hfid)))
      rw [hhead, hy]
      rw [List.find?_cons, hy] at h
      exact ih h

theorem findSet_other (l : List FileRec) (fid g : Nat) (f' : FileRec)
    (hid : f'.id = fid) (hg : g ≠ fid) :
    (l.map (fun x => if x.id = f'.id then f' else x)).find? (fun x => x.id = g) =
      l.find? (fun x => x.id = g) := by
  induction l with
  | nil => rfl
  | cons y ys ih =>
    rw [List.map_cons, List.find?_cons, List.find?_cons]
    by_cases hy : y.id = f'.id
    · have hyg : (decide (y.id = g)) = false :=
        decide_eq_false (fun hh => hg ((hh.symm.trans hy).trans hid))
      have hfg : (decide (f'.id = g)) = false :=
        decide_eq_false (fun hh => hg (hh.symm.trans hid))
      rw [if_pos hy, hyg, hfg]
      exact ih
    · rw [if_neg hy]
      cases hyg : (decide (y.id = g)) with
      | true => rfl
      | false => exact ih

theorem getFile_setFile_self {st : FileState} {fid : Nat} {f f' : FileRec}
    (hf : getFile st fid = some f) (hid : f'.id = f.id) :
    getFile (setFile st f') fid = some f' :=
  findSet_self st.files fid f f' hf hid

theorem getFile_setFile_other {st : FileState} {fid g : Nat} {f' : FileRec}
    (hid : f'.id = fid) (hg : g ≠ fid) :
    getFile (setFile st f') g = getFile st g :=
  findSet_other st.files fid g f' hid hg

/-- C8: each association operation on an existing file leaves at most one
of `article_id` and `paper_id` set — associating with an article stores the
article id and clears the paper id, associating with a paper stores the
paper id and clears the article id, `remove_associations` clears both — and
each of the three returns NotFound when the file does not exist. -/
theorem C8_association_mutual_exclusion (st : FileState) (fid aid pid : Nat) :
    (getFile st fid = none →
       associate_with_article st fid aid = OpResult.notFound ∧
       associate_with_paper st fid pid = OpResult.notFound ∧
       remove_associations st fid = OpResult.notFound) ∧
    (∀ f, getFile st fid = some f →
       associate_with_article st fid aid =
         OpResult.ok (setFile st { f with articleId := some aid, paperId := none },
                      { f with articleId := some aid, paperId := none }) ∧
       associate_with_paper st fid pid =
         OpResult.ok (setFile st { f with paperId := some pid, articleId := none },
                      { f with paperId := some pid, articleId := none }) ∧
       remove_associations st fid =
         OpResult.ok (setFile st { f with articleId := none, paperId := none },
                      { f with articleId := none, paperId := none }) ∧
       getFile (setFile st { f with articleId := some aid, paperId := none }) fid =
         some { f with articleId := some aid, paperId := none } ∧
       getFile (setFile st { f with paperId := some pid, articleId := none }) fid =
         some { f with paperId := some pid, articleId := none } ∧
       getFile (setFile st { f with articleId := none, paperId := none }) fid =
         some { f with articleId := none, paperId := none }) := by
  constructor
  · intro h
    exact ⟨by simp [associate_with_article, h], by simp [associate_with_paper, h],
           by simp [remove_associations, h]⟩
  · intro f hf
    refine ⟨by simp [associate_with_article, hf], by simp [associate_with_paper, hf],
            by simp [remove_associations, hf], ?_, ?_, ?_⟩ <;>
      exact getFile_setFile_self hf rfl

/-- C8 witness: on the concrete store, associating file 1 (which carries a
paper association) with article 5 clears the paper id, associating with
paper 9 clears the article id, and `remove_associations` clears both; the
stored row reflects each result. -/
theorem C8_witness :
    associate_with_article fileStoreW 1 5 =
      OpResult.ok (setFile fileStoreW { mkFile 1 "k1" true none (some 7) 0 with
                     articleId := some 5, paperId := none },
                   { mkFile 1 "k1" true none (some 7) 0 with
                     articleId := some 5, paperId := none }) ∧
    associate_with_paper fileStoreW 1 9 =
      OpResult.ok (setFile fileStoreW { mkFile 1 "k1" true none (some 7) 0 with
                     paperId := some 9, articleId := none },
                   { mkFile 1 "k1" true none (some 7) 0 with
                     paperId := some 9, articleId := none }) ∧
    remove_associations fileStoreW 1 =
      OpResult.ok (setFile fileStoreW { mkFile 1 "k1" true none (some 7) 0 with
                     articleId := none, paperId := none },
                   { mkFile 1 "k1" true none (some 7) 0 with
                     articleId := none, paperId := none }) ∧
    getFile (setFile fileStoreW { mkFile 1 "k1" true none (some 7) 0 with
        articleId := some 5, paperId := none }) 1 =
      some { mkFile 1 "k1" true none (some 7) 0 with articleId := some 5, paperId := none } ∧
    getFile (setFile fileStoreW { mkFile 1 "k1" true none (some 7) 0 with
        paperId := some 9, articleId := none }) 1 =
      some { mkFile 1 "k1" true none (some 7) 0 with paperId := some 9, articleId := none } ∧
    getFile (setFile fileStoreW { mkFile 1 "k1" true none (some 7) 0 with
        articleId := none, paperId := none }) 1 =
      some { mkFile 1 "k1" true none (some 7) 0 with articleId := none, paperId := none } :=
  (C8_association_mutual_exclusion fileStoreW 1 5 9).2
    (mkFile 1 "k1" true none (some 7) 0) (by decide)

/-- C10: downloading an existing non-public file fails with the permission
error before any state change; a successful download of a public existing
file increments that file's `download_count` by exactly one, changes no
other field of the record and no other record, and serves the stored path,
original filename and mime type. -/
theorem C10_download_increments_only_when_public
    (st : FileState) (fid : Nat) (f : FileRec) (hf : getFile st fid = some f) :
    (f.isPublic = false → download_file st fid = Except.error DownloadError.notPublic) ∧
    (∀ st2 resp, download_file st fid = Except.ok (st2, resp) →
       getFile st2 fid = some { f with downloadCount := f.downloadCount + 1 } ∧
       (∀ g, g ≠ fid → getFile st2 g = getFile st g) ∧
       resp = (f.filePath, f.originalFilename, f.mimeType)) := by
  have hfid : f.id = fid := (by simpa using List.find?_some hf)
  constructor
  · intro h
    simp [download_file, hf, h]
  · intro st2 resp hok
    simp only [download_file, hf] at hok
    cases hpub : f.isPublic with
    | false => simp [hpub] at hok
    | true =>
      simp only [hpub, Bool.not_true, Bool.false_eq_true, if_false] at hok
      cases hb : getBlob st f.filePath with
      | none => simp [hb] at hok
      | some b =>
        simp only [hb, Except.ok.injEq, Prod.mk.injEq] at hok
        obtain ⟨hst2, hresp⟩ := hok
        subst hst2
        refine ⟨getFile_setFile_self hf rfl, ?_, hresp.symm⟩
        intro g hg
        exact getFile_setFile_other (by simpa using hfid) hg

/-- C10 witness: in the concrete store, downloading the non-public file 2
is rejected with the permission error, and downloading the public file 1
increments its download count from 0 to 1, leaves file 2 untouched, and
serves its stored path, original name and mime type. -/
theorem C10_witness :
    download_file fileStoreW 2 = Except.error DownloadError.notPublic ∧
    (getFile (setFile fileStoreW { mkFile 1 "k1" true none (some 7) 0 with
        downloadCount := 1 }) 1 =
      some { mkFile 1 "k1" true none (some 7) 0 with downloadCount := 1 } ∧
     (∀ g, g ≠ 1 → getFile (setFile fileStoreW { mkFile 1 "k1" true none (some 7) 0 with
        downloadCount := 1 }) g = getFile fileStoreW g) ∧
     ("k1", "f.txt", "text/plain") = ("k1", "f.txt", "text/plain")) :=
  ⟨(C10_download_increments_only_when_public fileStoreW 2 (mkFile 2 "k2" false none none 3)
      (by decide)).1 rfl,
   (C10_download_increments_only_when_public fileStoreW 1 (mkFile 1 "k1" true none (some 7) 0)
      (by decide)).2
     (setFile fileStoreW { mkFile 1 "k1" true none (some 7) 0 with downloadCount := 1 })
     ("k1", "f.txt", "text/plain") rfl⟩

theorem isInfixChars_of_isPfx {n l : List Char} (h : isPfx n l = true) :
    isInfixChars n l = true := by
  cases l with
  | nil => exact h
  | cons c cs => simp [isInfixChars, h]

theorem isInfixChars_append_left (l1 : List Char) {n l2 : List Char}
    (h : isInfixChars n l2 = true) : isInfixChars n (l1 ++ l2) = true := by
  induction l1 with
  | nil => simpa using h
  | cons c cs ih =>
    rw [List.cons_append]
    simp only [isInfixChars, Bool.or_eq_true]
    exact Or.inr ih

theorem hash_infix_blobKey (ft h ext : String) :
    isInfixChars h.toList (blobKey ft h ext).toList = true := by
  rw [blobKey]
  simp only [strToList_append, List.append_assoc]
  apply isInfixChars_append_left
  apply isInfixChars_append_left
  apply isInfixChars_append_left
  apply isInfixChars_append_left
  exact isInfixChars_of_isPfx (isPfx_refl_append _ _)

theorem find?_append_none {α : Type} {p : α → Bool} {l1 : List α}
    (h : l1.find? p = none) (l2 : List α) : (l1 ++ l2).find? p = l2.find? p := by
  induction l1 with
  | nil => rfl
  | cons y ys ih =>
    rw [List.cons_append, List.find?_cons]
    rw [List.find?_cons] at h
    cases hy : p y with
    | true => rw [hy] at h; simp at h
    | false =>
      rw [hy] at h
      exact ih h

theorem putBlob_miss {st : FileState} {key : String} {b : ByteContent}
    (h : st.blobs.find? (fun kv => kv.1 = key) = none) :
    putBlob st key b = { st with blobs := st.blobs ++ [(key, b)] } := by
  unfold putBlob
  rw [h]
  simp

theorem uploadSeq_after_hit (hash : ByteContent → String) (st : FileState)
    (content : ByteContent) (nf : FileRec)
    (hhit : get_by_hash st (hash content) = some nf) :
    ∀ forms st' ids, uploadSeq hash st content forms = Except.ok (st', ids) →
      st' = st ∧ ∀ i ∈ ids, i = nf.id := by
  intro forms
  induction forms with
  | nil =>
    intro st' ids hok
    simp only [uploadSeq, Except.ok.injEq, Prod.mk.injEq] at hok
    obtain ⟨h1, h2⟩ := hok
    subst h1; subst h2
    exact ⟨rfl, by simp⟩
  | cons f0 rest ih =>
    intro st' ids hok
    simp only [uploadSeq, upload_file] at hok
    cases hval : validate_file f0.filename f0.size with
    | error e => simp [hval] at hok
    | ok fe =>
      obtain ⟨ft, ext⟩ := fe
      simp only [hval, hhit] at hok
      cases hrest : uploadSeq hash st content rest with
      | error e => simp [hrest] at hok
      | ok p2 =>
        obtain ⟨st2, ids2⟩ := p2
        simp only [hrest, Except.ok.injEq, Prod.mk.injEq] at hok
        obtain ⟨h1, h2⟩ := hok
        subst h1
        obtain ⟨hst, hall⟩ := ih st2 ids2 hrest
        refine ⟨hst, ?_⟩
        intro i hi
        rw [← h2] at hi
        rcases List.mem_cons.mp hi with hieq | himem
        · rw [hieq]
        · exact hall i himem

/-- C7: upload is idempotent by content.  When a record with the content's
digest already exists, uploading again — under any validating filename,
metadata or association parameters — returns that record's id with the
whole state unchanged; and starting from a state holding no record and no
blob for the digest, any successful sequence of uploads of the same content
leaves exactly one metadata row and exactly one blob for it, every call
returning the same id. -/
theorem C7_upload_idempotent_by_content :
    (∀ (hash : ByteContent → String) st form content ft ext ex,
       validate_file form.filename form.size = Except.ok (ft, ext) →
       get_by_hash st (hash content) = some ex →
       upload_file hash st form content = Except.ok (st, ex.id)) ∧
    (∀ (hash : ByteContent → String) st content forms st' ids,
       st.files.filter (fun f => f.fileHash = some (hash content)) = [] →
       (∀ kv ∈ st.blobs, isInfixChars (hash content).toList kv.1.toList = false) →
       forms ≠ [] →
       uploadSeq hash st content forms = Except.ok (st', ids) →
       (st'.files.filter (fun f => f.fileHash = some (hash content))).length = 1 ∧
       (st'.blobs.filter (fun kv => isInfixChars (hash content).toList kv.1.toList)).length = 1 ∧
       ∀ i ∈ ids, i = nextFileId st) := by
  constructor
  · intro hash st form content ft ext ex hval hex
    simp [upload_file, hval, hex]
  · intro hash st content forms st' ids hfresh hblob hne hok
    cases forms with
    | nil => exact absurd rfl hne
    | cons f0 rest =>
      simp only [uploadSeq, upload_file] at hok
      cases hval : validate_file f0.filename f0.size with
      | error e => simp [hval] at hok
      | ok fe =>
        obtain ⟨ft, ext⟩ := fe
        have hmiss : get_by_hash st (hash content) = none := by
          rw [get_by_hash, List.find?_eq_none]
          intro x hx hpred
          have hxf : x ∈ st.files.filter (fun f => f.fileHash = some (hash content)) :=
            List.mem_filter.mpr ⟨hx, hpred⟩
          rw [hfresh] at hxf
          cases hxf
        have hfind : st.blobs.find? (fun kv => kv.1 = blobKey ft (hash content) ext) = none := by
          rw [List.find?_eq_none]
          intro kv hkv hpred
          have hkey : kv.1 = blobKey ft (hash content) ext := by simpa using hpred
          have hb := hblob kv hkv
          rw [hkey, hash_infix_blobKey] at hb
          cases hb
        simp only [hval, hmiss, putBlob_miss hfind] at hok
        cases hrest : uploadSeq hash
            (addFile { st with blobs := st.blobs ++ [(blobKey ft (hash content) ext, content)] }
              (mkUploadRec st f0 ft ext (hash content) content))
            content rest with
        | error e => simp [hrest] at hok
        | ok p2 =>
          obtain ⟨st2, ids2⟩ := p2
          simp only [hrest, Except.ok.injEq, Prod.mk.injEq] at hok
          obtain ⟨h1, h2⟩ := hok
          have hhit1 : get_by_hash
              (addFile { st with blobs := st.blobs ++ [(blobKey ft (hash content) ext, content)] }
                (mkUploadRec st f0 ft ext (hash content) content))
              (hash content) =
            some (mkUploadRec st f0 ft ext (hash content) content) := by
            rw [get_by_hash, addFile]
            rw [find?_append_none hmiss]
            simp [mkUploadRec]
          obtain ⟨hst2, hall⟩ := uploadSeq_after_hit hash _ content _ hhit1 rest st2 ids2 hrest
          subst hst2
          subst h1
          refine ⟨?_, ?_, ?_⟩
          · simp only [addFile, List.filter_append, hfresh]
            simp [mkUploadRec]
          · simp only [addFile, List.filter_append]
            have hb0 : st.blobs.filter (fun kv => isInfixChars (hash content).toList kv.1.toList) = [] := by
              rw [List.filter_eq_nil_iff]
              intro kv hkv
              simp only [Bool.not_eq_true]
              exact hblob kv hkv
            rw [hb0, List.nil_append]
            simp only [List.filter_cons, List.filter_nil]
            rw [hash_infix_blobKey]
            simp
          · intro i hi
            rw [← h2] at hi
            rcases List.mem_cons.mp hi with hieq | himem
            · rw [hieq]; rfl
            · exact hall i himem

/-- C7 witness: re-uploading content whose digest `h1` is already stored
returns the existing id 1 with the state unchanged; and two uploads of the
same fresh content under the names `a.txt` and `b.pdf` from the empty state
leave exactly one metadata row and one blob for the digest, both calls
returning id 1. -/
theorem C7_witness :
    upload_file (fun _ => "h1") fileStoreW c7FormA [0] = Except.ok (fileStoreW, 1) ∧
    ((exOkState c7Run).files.filter (fun f => f.fileHash = some "k")).length = 1 ∧
    ((exOkState c7Run).blobs.filter (fun kv => isInfixChars "k".toList kv.1.toList)).length = 1 ∧
    (∀ i ∈ exOkIds c7Run, i = nextFileId { files := [], blobs := [] }) :=
  ⟨C7_upload_idempotent_by_content.1 (fun _ => "h1") fileStoreW c7FormA [0]
     "document" "pdf" (mkFile 1 "k1" true none (some 7) 0) rfl (by decide),
   (C7_upload_idempotent_by_content.2 (fun _ => "k") { files := [], blobs := [] } [1, 2]
     c7Forms (exOkState c7Run) (exOkIds c7Run) rfl (by decide) (by decide) rfl).1,
   (C7_upload_idempotent_by_content.2 (fun _ => "k") { files := [], blobs := [] } [1, 2]
     c7Forms (exOkState c7Run) (exOkIds c7Run) rfl (by decide) (by decide) rfl).2.1,
   (C7_upload_idempotent_by_content.2 (fun _ => "k") { files := [], blobs := [] } [1, 2]
     c7Forms (exOkState c7Run) (exOkIds c7Run) rfl (by decide) (by decide) rfl).2.2⟩

theorem find?_map_updateCounts (s : CatStore) (l : List Category) (cid : Nat) :
    (l.map (fun c => updateCountsFields s c)).find? (fun c => c.id = cid) =
      (l.find? (fun c => c.id = cid)).map (fun c => updateCountsFields s c) := by
  induction l with
  | nil => rfl
  | cons y ys ih =>
    rw [List.map_cons, List.find?_cons, List.find?_cons]
    have hsame : (decide ((updateCountsFields s y).id = cid)) = decide (y.id = cid) := rfl
    rw [hsame]
    cases hy : decide (y.id = cid) with
    | true => rfl
    | false => exact ih

/-- C9 counterexample: the spec claims that the count refresh sets
`paper_count` to the number of directly associated *published* papers; on a
category whose single linked paper is unpublished, the refreshed
`paper_count` is 1 while the spec's count is 0 — `update_counts` computes
`len(self.papers)` with no publication filter (the `Paper` model has no
publication column at all). -/
theorem C9_paper_count_ignores_publication :
    (getCat (update_all_counts paperStore).1 1).map (·.paperCount) = some 1 ∧
    specPublishedPaperCount paperStore 1 = 0 ∧ (1 : Nat) ≠ 0 := by
  decide

/-- C9, amended: the count refresh sets, for each category, `article_count`
to the number of directly associated published articles and `paper_count`
to the number of ALL directly associated papers (papers carry no publication
flag and are not filtered), computed per node only — no descendant content
is included — and `update_all_counts` returns the number of categories
whose stored counts differed from the recomputed ones. -/
theorem C9_counts_are_per_node (s : CatStore) (cid : Nat) (c' : Category)
    (h : getCat (update_all_counts s).1 cid = some c') :
    c'.articleCount = publishedArticleCount s cid ∧
    c'.paperCount = linkedPaperCount s cid ∧
    (update_all_counts s).2 = (s.cats.filter (fun c =>
       (publishedArticleCount s c.id != c.articleCount) ||
       (linkedPaperCount s c.id != c.paperCount))).length := by
  refine ⟨?_, ?_, rfl⟩ <;>
  · have h2 : (s.cats.map (fun c => updateCountsFields s c)).find? (fun c => c.id = cid) =
        some c' := h
    rw [find?_map_updateCounts] at h2
    cases hfind : s.cats.find? (fun c => c.id = cid) with
    | none => rw [hfind] at h2; simp at h2
    | some c =>
      rw [hfind] at h2
      have h3 : updateCountsFields s c = c' := by simpa using h2
      have hcid : c.id = cid := by simpa using List.find?_some hfind
      rw [← h3, ← hcid]
      rfl

/-- C9 witness: on the one-category store with a single unpublished linked
paper, the refreshed row carries `article_count = 0` (no published
articles) and `paper_count = 1` (one linked paper), and the refresh reports
one changed category. -/
theorem C9_witness :
    ({ mkCat 1 "P" "p" none 0 "/p" with paperCount := 1 } : Category).articleCount =
      publishedArticleCount paperStore 1 ∧
    ({ mkCat 1 "P" "p" none 0 "/p" with paperCount := 1 } : Category).paperCount =
      linkedPaperCount paperStore 1 ∧
    (update_all_counts paperStore).2 = (paperStore.cats.filter (fun c =>
       (publishedArticleCount paperStore c.id != c.articleCount) ||
       (linkedPaperCount paperStore c.id != c.paperCount))).length :=
  C9_counts_are_per_node paperStore 1
    { mkCat 1 "P" "p" none 0 "/p" with paperCount := 1 } (by decide)

theorem digitVal_digitChar {n : Nat} (h : n < 10) : digitVal (digitChar n) = n := by
  interval_cases n <;> rfl

theorem decVal_append (l : List Char) (c : Char) :
    decVal (l ++ [c]) = 10 * decVal l + digitVal c := by
  rw [decVal, List.foldl_append]
  rfl

theorem decVal_natDigitsAux : ∀ fuel n : Nat, n < fuel →
    decVal (natDigitsAux fuel n) = n := by
  intro fuel
  induction fuel with
  | zero => intro n h; exact absurd h (Nat.not_lt_zero n)
  | succ fuel ih =>
    intro n h
    simp only [natDigitsAux]
    by_cases h10 : n < 10
    · rw [if_pos h10]
      simp [decVal, digitVal_digitChar h10]
    · have hdiv : n / 10 < fuel := by
        have := Nat.div_lt_self (show 0 < n by omega) (show 1 < 10 by omega)
        omega
      rw [if_neg h10, decVal_append, ih (n / 10) hdiv,
        digitVal_digitChar (Nat.mod_lt n (by omega))]
      omega

theorem decVal_natDigits (n : Nat) : decVal (natDigits n) = n :=
  decVal_natDigitsAux (n + 1) n (by omega)

theorem natRepr_inj {m n : Nat} (h : natRepr m = natRepr n) : m = n := by
  have hd : natDigits m = natDigits n := by
    have := congrArg String.data h
    simpa [natRepr] using this
  have := congrArg decVal hd
  rwa [decVal_natDigits, decVal_natDigits] at this

theorem natDigits_ne_nil (n : Nat) : natDigits n ≠ [] := by
  rw [natDigits]
  simp only [natDigitsAux]
  by_cases h10 : n < 10
  · rw [if_pos h10]; simp
  · rw [if_neg h10]; simp

theorem cand_ne_base (base : String) (k : Nat) : base ++ "-" ++ natRepr k ≠ base := by
  intro h
  have hd := congrArg (fun s : String => s.data.length) h
  simp only [String.data_append, List.length_append] at hd
  have hr : 0 < (natRepr k).data.length := by
    have : (natRepr k).data = natDigits k := rfl
    rw [this]
    exact List.length_pos.mpr (natDigits_ne_nil k)
  simp at hd
  omega

theorem cand_inj (base : String) {i j : Nat}
    (h : base ++ "-" ++ natRepr i = base ++ "-" ++ natRepr j) : i = j := by
  have hd := congrArg String.data h
  simp only [String.data_append, List.append_assoc] at hd
  have h1 := List.append_cancel_left hd
  have h2 := List.append_cancel_left h1
  have hrepr : natRepr i = natRepr j := by
    have hi : (natRepr i).data = natDigits i := rfl
    have hj : (natRepr j).data = natDigits j := rfl
    rw [natRepr, natRepr]
    rw [hi, hj] at h2
    rw [h2]
  exact natRepr_inj hrepr

theorem strPfx_base_cand (base : String) (k : Nat) :
    strPfx base (base ++ "-" ++ natRepr k) = true := by
  rw [String.append_assoc]
  exact strPfx_self_append _ _

theorem strPfx_refl (a : String) : strPfx a a = true := by
  have := strPfx_self_append a ""
  simpa using this

theorem strPfx_pattAt (base : String) (t : Nat) : strPfx base (pattAt base t) = true := by
  rw [pattAt]
  by_cases h : t = 0
  · rw [if_pos h]; exact strPfx_refl base
  · rw [if_neg h]; exact strPfx_base_cand base t

theorem pattAt_inj (base : String) {i j : Nat} (h : pattAt base i = pattAt base j) :
    i = j := by
  rw [pattAt, pattAt] at h
  by_cases hi : i = 0 <;> by_cases hj : j = 0
  · omega
  · rw [if_pos hi, if_neg hj] at h; exact absurd h.symm (cand_ne_base base j)
  · rw [if_neg hi, if_pos hj] at h; exact absurd h (cand_ne_base base i)
  · rw [if_neg hi, if_neg hj] at h; exact cand_inj base h

theorem get_by_slug_isSome_iff (s : CatStore) (sl : String) :
    (get_by_slug s sl).isSome = true ↔ sl ∈ slugsOf s := by
  rw [get_by_slug]
  constructor
  · intro h
    obtain ⟨x, hx, hpx⟩ := List.find?_isSome.mp h
    exact List.mem_map.mpr ⟨x, hx, of_decide_eq_true hpx⟩
  · intro h
    obtain ⟨x, hx, hxsl⟩ := List.mem_map.mp h
    exact List.find?_isSome.mpr ⟨x, hx, decide_eq_true hxsl⟩

theorem resolveSlugAux_spec (s : CatStore) (base : String) :
    ∀ fuel k m : Nat, k ≤ m → m - k < fuel →
      (∀ i, k ≤ i → i < m → (get_by_slug s (base ++ "-" ++ natRepr i)).isSome = true) →
      (get_by_slug s (base ++ "-" ++ natRepr m)).isSome = false →
      resolveSlugAux s base fuel k = base ++ "-" ++ natRepr m := by
  intro fuel
  induction fuel with
  | zero => intro k m _ h2 _ _; exact absurd h2 (Nat.not_lt_zero _)
  | succ fuel ih =>
    intro k m hkm hfuel htaken hfree
    simp only [resolveSlugAux]
    by_cases hk : k = m
    · subst hk
      rw [hfree]
      simp
    · have hk' : k < m := by omega
      rw [htaken k (Nat.le_refl k) hk']
      simp only [if_true]
      exact ih (k + 1) m (by omega) (by omega)
        (fun i hi1 hi2 => htaken i (by omega) hi2) hfree

theorem length_slugsOf (s : CatStore) : (slugsOf s).length = s.cats.length := by
  rw [slugsOf, List.length_map]

/-- In a store whose slugs are a base-fresh prefix `old` followed by the
first `j` pattern slugs, the collision loop assigns exactly the `j`-th
pattern slug. -/
theorem resolveSlug_pattern (s : CatStore) (base : String) (old : List String)
    (hold : ∀ sl ∈ old, strPfx base sl = false) (j : Nat)
    (hstate : slugsOf s = old ++ pattList base j) :
    resolveSlug s base = pattAt base j := by
  have hmem : ∀ sl, (get_by_slug s sl).isSome = true ↔ sl ∈ old ++ pattList base j := by
    intro sl
    rw [get_by_slug_isSome_iff, hstate]
  have hnotold : ∀ t, pattAt base t ∉ old := by
    intro t hmem0
    have := hold _ hmem0
    rw [strPfx_pattAt] at this
    cases this
  cases j with
  | zero =>
    have hbase_free : (get_by_slug s base).isSome = false := by
      rw [← Bool.not_eq_true, hmem]
      intro hmem1
      rw [pattList] at hmem1
      simp only [List.range_zero, List.map_nil, List.append_nil] at hmem1
      exact hnotold 0 (by simpa [pattAt] using hmem1)
    rw [resolveSlug, hbase_free]
    simp [pattAt]
  | succ m =>
    have hbase_taken : (get_by_slug s base).isSome = true := by
      rw [hmem]
      apply List.mem_append_right
      rw [pattList]
      exact List.mem_map.mpr ⟨0, by simp, by simp [pattAt]⟩
    rw [resolveSlug, hbase_taken]
    simp only [if_true]
    have hlen : m + 1 ≤ s.cats.length := by
      have := congrArg List.length hstate
      rw [length_slugsOf, List.length_append, pattList, List.length_map,
        List.length_range] at this
      omega
    rw [show pattAt base (m + 1) = base ++ "-" ++ natRepr (m + 1) by simp [pattAt]]
    apply resolveSlugAux_spec s base (s.cats.length + 1) 1 (m + 1) (by omega) (by omega)
    · intro i hi1 hi2
      rw [hmem]
      apply List.mem_append_right
      rw [pattList]
      refine List.mem_map.mpr ⟨i, by simp; omega, ?_⟩
      simp [pattAt]
      omega
    · rw [← Bool.not_eq_true, hmem]
      intro hmem1
      rcases List.mem_append.mp hmem1 with h1 | h1
      · exact hnotold (m + 1) (by simpa [pattAt] using h1)
      · rw [pattList] at h1
        obtain ⟨t, ht, heq⟩ := List.mem_map.mp h1
        rw [List.mem_range] at ht
        have : t = m + 1 := pattAt_inj base (heq.trans (by simp [pattAt]))
        omega

theorem le_foldr_max (l : List Nat) (x : Nat) (hx : x ∈ l) : x ≤ l.foldr max 0 := by
  induction l with
  | nil => cases hx
  | cons y ys ih =>
    rcases List.mem_cons.mp hx with h | h
    · subst h; exact Nat.le_max_left _ _
    · exact Nat.le_trans (ih h) (Nat.le_max_right _ _)

theorem nextCatId_not_mem (s : CatStore) (x : Category) (hx : x ∈ s.cats) :
    x.id ≠ nextCatId s := by
  have := le_foldr_max (s.cats.map (·.id)) x.id (List.mem_map_of_mem _ hx)
  rw [nextCatId]
  omega

theorem updatePathFields_slug (p : Option Category) (c : Category) :
    (updatePathFields p c).slug = c.slug := by
  cases p <;> rfl

theorem updatePathFields_id (p : Option Category) (c : Category) :
    (updatePathFields p c).id = c.id := by
  cases p <;> rfl

theorem setCat_map_slug_of_mem {s : CatStore} (hn : (s.cats.map (·.id)).Nodup)
    {p : Category} (hp : p ∈ s.cats) {p' : Category}
    (hid : p'.id = p.id) (hslug : p'.slug = p.slug) :
    (setCat s p').cats.map (·.slug) = s.cats.map (·.slug) := by
  rw [setCat_cats, List.map_map]
  apply List.map_congr_left
  intro x hx
  by_cases h : x.id = p'.id
  · have hxp : x = p := List.inj_on_of_nodup_map hn hx hp (h.trans hid)
    subst hxp
    simp only [Function.comp]
    rw [if_pos h]
    exact hslug
  · simp [Function.comp, h]

theorem updateAncestorCountsAux_preserves :
    ∀ (fuel : Nat) (s : CatStore) (cur : Option Category),
      (s.cats.map (·.id)).Nodup →
      (∀ p, cur = some p → p ∈ s.cats) →
      (updateAncestorCountsAux s cur fuel).cats.map (·.slug) = s.cats.map (·.slug) ∧
      (updateAncestorCountsAux s cur fuel).cats.map (·.id) = s.cats.map (·.id) := by
  intro fuel
  induction fuel with
  | zero => intro s cur _ _; exact ⟨rfl, rfl⟩
  | succ fuel ih =>
    intro s cur hn hcur
    cases cur with
    | none => exact ⟨rfl, rfl⟩
    | some p =>
      simp only [updateAncestorCountsAux]
      have hpmem : p ∈ s.cats := hcur p rfl
      have hslug1 : (setCat s (updateCountsFields s p)).cats.map (·.slug) =
          s.cats.map (·.slug) := setCat_map_slug_of_mem hn hpmem rfl rfl
      have hid1 : (setCat s (updateCountsFields s p)).cats.map (·.id) =
          s.cats.map (·.id) := setCat_map_id s _
      have hn1 : ((setCat s (updateCountsFields s p)).cats.map (·.id)).Nodup := by
        rw [hid1]; exact hn
      have hcur1 : ∀ q, parentOf (setCat s (updateCountsFields s p)) (updateCountsFields s p) =
          some q → q ∈ (setCat s (updateCountsFields s p)).cats := by
        intro q hq
        rw [parentOf] at hq
        cases hpid : (updateCountsFields s p).parentId with
        | none => rw [hpid] at hq; cases hq
        | some pid =>
          rw [hpid] at hq
          exact (getCat_eq_some hq).1
      obtain ⟨hA, hB⟩ := ih _ _ hn1 hcur1
      exact ⟨hA.trans hslug1, hB.trans hid1⟩

/-- After inserting a fresh row and refreshing the ancestor counts, the
slugs are the old slugs plus the new row's slug, and the ids stay
duplicate-free. -/
theorem create_post (s : CatStore) (hn : (s.cats.map (·.id)).Nodup)
    (c1 : Category) (hcid : c1.id = nextCatId s) :
    slugsOf (updateAncestorCounts (addCat s c1) c1) = slugsOf s ++ [c1.slug] ∧
    ((updateAncestorCounts (addCat s c1) c1).cats.map (·.id)).Nodup := by
  have hslug1 : slugsOf (addCat s c1) = slugsOf s ++ [c1.slug] := by
    rw [slugsOf, addCat, List.map_append]
    rfl
  have hid1 : (addCat s c1).cats.map (·.id) = s.cats.map (·.id) ++ [c1.id] := by
    rw [addCat, List.map_append]
    rfl
  have hfreshnodup : (s.cats.map (·.id) ++ [c1.id]).Nodup := by
    rw [List.nodup_append]
    refine ⟨hn, List.nodup_singleton _, ?_⟩
    intro a ha hb
    rw [List.mem_singleton] at hb
    obtain ⟨x, hx, hxid⟩ := List.mem_map.mp ha
    exact nextCatId_not_mem s x hx ((hxid.trans hb).trans hcid)
  have hn1 : ((addCat s c1).cats.map (·.id)).Nodup := by
    rw [hid1]
    exact hfreshnodup
  have hcur : ∀ p, parentOf (addCat s c1) c1 = some p → p ∈ (addCat s c1).cats := by
    intro p hp
    rw [parentOf] at hp
    cases hpid : c1.parentId with
    | none => rw [hpid] at hp; cases hp
    | some pid =>
      rw [hpid] at hp
      exact (getCat_eq_some hp).1
  obtain ⟨hA, hB⟩ := updateAncestorCountsAux_preserves (addCat s c1).cats.length
    (addCat s c1) (parentOf (addCat s c1) c1) hn1 hcur
  constructor
  · rw [updateAncestorCounts, slugsOf, hA]
    rw [← slugsOf, hslug1]
  · rw [updateAncestorCounts, hB]
    rw [hid1]
    exact hfreshnodup

/-- A successful create with an explicitly requested, non-empty slug
persists the collision-resolved slug, appends it to the store's slugs, and
keeps ids duplicate-free. -/
theorem createWithSlug_ok (s : CatStore) (i : CategoryCreate) (base : String)
    (hslug : i.slug = some base) (hbase : base ≠ "")
    (hn : (s.cats.map (·.id)).Nodup)
    {s' : CatStore} {c : Category} (h : createWithSlug s i = OpResult.ok (s', c)) :
    c.slug = resolveSlug s base ∧
    slugsOf s' = slugsOf s ++ [c.slug] ∧
    (s'.cats.map (·.id)).Nodup := by
  simp only [createWithSlug, hslug] at h
  rw [if_neg hbase] at h
  cases hpid : i.parentId with
  | none =>
    simp only [hpid, OpResult.ok.injEq, Prod.mk.injEq] at h
    obtain ⟨h1, h2⟩ := h
    subst h1
    subst h2
    refine ⟨updatePathFields_slug _ _, ?_⟩
    have hcid : (updatePathFields (parentOf s
        { id := nextCatId s, name := i.name, slug := resolveSlug s base, parentId := none,
          level := 0, path := "", isActive := i.isActive, isSystem := i.isSystem,
          sortOrder := i.sortOrder, articleCount := 0, paperCount := 0 })
        { id := nextCatId s, name := i.name, slug := resolveSlug s base, parentId := none,
          level := 0, path := "", isActive := i.isActive, isSystem := i.isSystem,
          sortOrder := i.sortOrder, articleCount := 0, paperCount := 0 }).id = nextCatId s := by
      rw [updatePathFields_id]
    exact create_post s hn _ hcid
  | some pid =>
    simp only [hpid] at h
    by_cases hpid0 : pid = 0
    · rw [if_pos hpid0] at h
      simp only [OpResult.ok.injEq, Prod.mk.injEq] at h
      obtain ⟨h1, h2⟩ := h
      subst h1
      subst h2
      refine ⟨updatePathFields_slug _ _, ?_⟩
      exact create_post s hn _ (by rw [updatePathFields_id])
    · rw [if_neg hpid0] at h
      cases hget : getCat s pid with
      | none => simp [hget] at h
      | some p =>
        simp only [hget] at h
        by_cases hact : p.isActive
        · rw [if_pos hact] at h
          simp only [OpResult.ok.injEq, Prod.mk.injEq] at h
          obtain ⟨h1, h2⟩ := h
          subst h1
          subst h2
          refine ⟨updatePathFields_slug _ _, ?_⟩
          exact create_post s hn _ (by rw [updatePathFields_id])
        · rw [if_neg hact] at h
          simp at h

theorem pattList_snoc (base : String) (j : Nat) :
    pattList base (j + 1) = pattList base j ++ [pattAt base j] := by
  rw [pattList, List.range_succ, List.map_append]
  rfl

/-- Each create in a run of same-base creates receives the next pattern
slug, and the store's slugs extend accordingly. -/
theorem createSeq_pattern (base : String) (hbase : base ≠ "") (old : List String)
    (hold : ∀ sl ∈ old, strPfx base sl = false) :
    ∀ (inputs : List CategoryCreate) (s0 : CatStore) (j : Nat) (s' : CatStore)
      (cs : List Category),
      (∀ i ∈ inputs, i.slug = some base) →
      (s0.cats.map (·.id)).Nodup →
      slugsOf s0 = old ++ pattList base j →
      createSeq s0 inputs = OpResult.ok (s', cs) →
      cs.map (·.slug) = (List.range' j inputs.length).map (pattAt base) ∧
      slugsOf s' = old ++ pattList base (j + inputs.length) := by
  intro inputs
  induction inputs with
  | nil =>
    intro s0 j s' cs _ _ hstate hok
    simp only [createSeq, OpResult.ok.injEq, Prod.mk.injEq] at hok
    obtain ⟨h1, h2⟩ := hok
    subst h1
    subst h2
    simpa using hstate
  | cons i rest ih =>
    intro s0 j s' cs hslugs hn hstate hok
    simp only [createSeq] at hok
    cases hc : createWithSlug s0 i with
    | notFound => simp [hc] at hok
    | invalidState m => simp [hc] at hok
    | ok p1 =>
      obtain ⟨s1, c⟩ := p1
      simp only [hc] at hok
      obtain ⟨hcslug, hslugs1, hn1⟩ :=
        createWithSlug_ok s0 i base (hslugs i (by simp)) hbase hn hc
      have hres : resolveSlug s0 base = pattAt base j :=
        resolveSlug_pattern s0 base old hold j hstate
      have hcslug2 : c.slug = pattAt base j := hcslug.trans hres
      have hstate1 : slugsOf s1 = old ++ pattList base (j + 1) := by
        rw [hslugs1, hstate, hcslug2, pattList_snoc, List.append_assoc]
      cases hrest : createSeq s1 rest with
      | notFound => simp [hrest] at hok
      | invalidState m => simp [hrest] at hok
      | ok p2 =>
        obtain ⟨s2, cs2⟩ := p2
        simp only [hrest, OpResult.ok.injEq, Prod.mk.injEq] at hok
        obtain ⟨h1, h2⟩ := hok
        subst h1
        obtain ⟨hA, hB⟩ := ih s1 (j + 1) s2 cs2
          (fun x hx => hslugs x (by simp [hx])) hn1 hstate1 hrest
        constructor
        · rw [← h2, List.map_cons, hA, hcslug2, List.length_cons, List.range'_succ,
            List.map_cons]
        · rw [hB, List.length_cons]
          have harith : j + 1 + rest.length = j + (rest.length + 1) := by omega
          rw [harith]

/-- C4: a sequence of creates all requesting the same base slug, run on a
well-formed store holding no base-prefixed slug, persists the slugs `base`,
`base-1`, `base-2`, … in order; the persisted slugs are pairwise distinct,
none collides with a pre-existing slug anywhere in the tree (the uniqueness
check is global, not per-parent), and the store's slug column stays
duplicate-free. -/
theorem C4_slug_collision_suffixes (s0 : CatStore) (base : String)
    (inputs : List CategoryCreate) (s' : CatStore) (cs : List Category)
    (hbase : base ≠ "")
    (hslugs : ∀ i ∈ inputs, i.slug = some base)
    (hnodup : (s0.cats.map (·.id)).Nodup)
    (hfresh : ∀ c ∈ s0.cats, strPfx base c.slug = false)
    (hok : createSeq s0 inputs = OpResult.ok (s', cs)) :
    cs.map (·.slug) = (List.range inputs.length).map (pattAt base) ∧
    (cs.map (·.slug)).Nodup ∧
    (∀ c ∈ cs, c.slug ∉ slugsOf s0) ∧
    slugsOf s' = slugsOf s0 ++ cs.map (·.slug) ∧
    ((slugsOf s0).Nodup → (slugsOf s').Nodup) := by
  have hold : ∀ sl ∈ slugsOf s0, strPfx base sl = false := by
    intro sl hsl
    obtain ⟨x, hx, hxsl⟩ := List.mem_map.mp hsl
    rw [← hxsl]
    exact hfresh x hx
  have hstate0 : slugsOf s0 = slugsOf s0 ++ pattList base 0 := by simp [pattList]
  obtain ⟨hA, hB⟩ := createSeq_pattern base hbase (slugsOf s0) hold inputs s0 0 s' cs
    hslugs hnodup hstate0 hok
  have hA' : cs.map (·.slug) = (List.range inputs.length).map (pattAt base) := by
    rw [List.range_eq_range']
    exact hA
  have hpatt_mem : ∀ sl ∈ cs.map (·.slug), strPfx base sl = true := by
    intro sl hsl
    rw [hA'] at hsl
    obtain ⟨t, _, ht⟩ := List.mem_map.mp hsl
    rw [← ht]
    exact strPfx_pattAt base t
  have hnotin : ∀ c ∈ cs, c.slug ∉ slugsOf s0 := by
    intro c hc hmem
    have h1 := hold _ hmem
    have h2 := hpatt_mem c.slug (List.mem_map_of_mem _ hc)
    rw [h1] at h2
    cases h2
  have hB2 : slugsOf s' = slugsOf s0 ++ cs.map (·.slug) := by
    rw [hB, hA']
    have : pattList base (0 + inputs.length) = (List.range inputs.length).map (pattAt base) := by
      rw [pattList]
      have h0 : 0 + inputs.length = inputs.length := by omega
      rw [h0]
    rw [this]
  refine ⟨hA', ?_, hnotin, hB2, ?_⟩
  · rw [hA']
    exact ((List.nodup_range _).map_on
      (fun x _ y _ hxy => pattAt_inj base hxy))
  · intro h0
    rw [hB2, List.nodup_append]
    refine ⟨h0, ?_, ?_⟩
    · rw [hA']
      exact ((List.nodup_range _).map_on
        (fun x _ y _ hxy => pattAt_inj base hxy))
    · intro a ha hb
      obtain ⟨c, hc, hcsl⟩ := List.mem_map.mp hb
      rw [← hcsl] at ha
      exact hnotin c hc ha

/-- C4 witness: from the store holding only `tech`, three creates all
requesting slug `ai` (one root, two under `tech`) persist `ai`, `ai-1`,
`ai-2` — pairwise distinct, disjoint from the existing slugs, appended to
the store, with the slug column duplicate-free. -/
theorem C4_witness :
    (seqOkCats (createSeq c4Store c4Inputs)).map (·.slug) =
      (List.range c4Inputs.length).map (pattAt "ai") ∧
    ((seqOkCats (createSeq c4Store c4Inputs)).map (·.slug)).Nodup ∧
    (∀ c ∈ seqOkCats (createSeq c4Store c4Inputs), c.slug ∉ slugsOf c4Store) ∧
    slugsOf (seqOkStore (createSeq c4Store c4Inputs)) =
      slugsOf c4Store ++ (seqOkCats (createSeq c4Store c4Inputs)).map (·.slug) ∧
    ((slugsOf c4Store).Nodup → (slugsOf (seqOkStore (createSeq c4Store c4Inputs))).Nodup) :=
  C4_slug_collision_suffixes c4Store "ai" c4Inputs
    (seqOkStore (createSeq c4Store c4Inputs)) (seqOkCats (createSeq c4Store c4Inputs))
    (by decide) (by decide) (by decide) (by decide) rfl

/-- C3, amended: the slug derivation is a pure function with
`slugify("Machine Learning") = "machine-learning"`,
`slugify("Python 3.12") = "python-312"` (periods are deleted, not
hyphenated), and `slugify("   ") = "category"`, the fixed default token. -/
theorem C3_slugify_values :
    create_slug_from_name "Machine Learning" = "machine-learning" ∧
    create_slug_from_name "Python 3.12" = "python-312" ∧
    create_slug_from_name "   " = "category" := by
  decide

end KS
